import Mathlib

/-!
Verification of the write-ahead-log engine in `src/main.py`.

The journal file is modelled as a raw `String` (its exact byte content).
Python string primitives used by the program (`readlines`, `split`,
`strip`, substring containment via `in`, `startswith`, `int`, `str`)
are modelled by executable character-level functions below.  Fallible
Python code (unpacking a `split` of the wrong arity, `int` on a
non-numeric token, `ValueError` in `parse_op_from_id`) is modelled with
`Option`, `none` standing for a raised exception.
-/

/-- Whitespace in the sense of Python `str.split()` / `str.strip()`. -/
def isPySpace (c : Char) : Bool :=
  c = ' ' || c = '\t' || c = '\n' || c = '\r' || c = '\x0b' || c = '\x0c'

/-- Model of Python `str.strip()` on character lists. -/
def stripL (l : List Char) : List Char :=
  ((l.dropWhile isPySpace).reverse.dropWhile isPySpace).reverse

/-- Model of Python `str.strip()`. -/
def pyStrip (s : String) : String := String.mk (stripL s.data)

/-- `subL n h` decides whether `n` occurs as a contiguous substring of `h`,
as Python's `n in h` does. -/
def subL (n : List Char) : List Char → Bool
  | [] => n.isEmpty
  | c :: t => n.isPrefixOf (c :: t) || subL n t

/-- Model of Python substring containment `n in h`. -/
def pyIn (n h : String) : Bool := subL n.data h.data

/-- Model of Python `s.startswith(p)`. -/
def pyStartsWith (s p : String) : Bool := p.data.isPrefixOf s.data

/-- Auxiliary loop for whitespace splitting: `acc` holds the reversed
characters of the token being read. -/
def splitWsL : List Char → List Char → List (List Char)
  | [], [] => []
  | [], acc => [acc.reverse]
  | c :: rest, acc =>
    if isPySpace c then
      if acc = [] then splitWsL rest [] else acc.reverse :: splitWsL rest []
    else splitWsL rest (c :: acc)

/-- Model of Python `s.split()` (split on whitespace runs, no empty tokens). -/
def pySplit (s : String) : List String := (splitWsL s.data []).map String.mk

/-- Auxiliary loop for separator splitting: `acc` holds the reversed
characters of the chunk being read. -/
def splitSepL (sep : Char) : List Char → List Char → List (List Char)
  | [], acc => [acc.reverse]
  | c :: rest, acc =>
    if c = sep then acc.reverse :: splitSepL sep rest []
    else splitSepL sep rest (c :: acc)

/-- Model of Python `s.split(sep)` for a one-character separator. -/
def pySplitOn (sep : Char) (s : String) : List String :=
  (splitSepL sep s.data []).map String.mk

/-- Auxiliary loop for `readlines`: splits after every newline character,
each produced line keeping its terminating `'\n'`; a final unterminated
chunk is produced without one. -/
def readlinesL : List Char → List Char → List (List Char)
  | [], [] => []
  | [], acc => [acc.reverse]
  | c :: rest, acc =>
    if c = '\n' then (acc.reverse ++ ['\n']) :: readlinesL rest []
    else readlinesL rest (c :: acc)

/-- Model of Python `f.readlines()` applied to file content `s`. -/
def pyReadlines (s : String) : List String := (readlinesL s.data []).map String.mk

/-- Concatenation of a list of strings (Python `"".join` /
successive `f.write` calls). -/
def sjoin : List String → String
  | [] => ""
  | s :: rest => s ++ sjoin rest

/-- Decimal digit characters of `n`, most significant first; `fuel`
bounds the recursion and any `fuel > n` is exact. -/
def natToStrAux : Nat → Nat → List Char
  | 0, _ => []
  | fuel + 1, n =>
    if n < 10 then [Nat.digitChar n]
    else natToStrAux fuel (n / 10) ++ [Nat.digitChar (n % 10)]

/-- Model of Python `str(i)` for an integer `i`. -/
def intToStr (i : Int) : String :=
  if i < 0 then String.mk ('-' :: natToStrAux (i.natAbs + 1) i.natAbs)
  else String.mk (natToStrAux (i.toNat + 1) i.toNat)

/-- Numeric value of a decimal digit character. -/
def digitVal (c : Char) : Nat := c.toNat - 48

/-- Value of a list of decimal digit characters, most significant first. -/
def decimalVal (l : List Char) : Nat :=
  l.foldl (fun acc c => 10 * acc + digitVal c) 0

/-- The ten ASCII decimal digit characters. -/
def isDig (c : Char) : Bool :=
  c = '0' || c = '1' || c = '2' || c = '3' || c = '4' ||
  c = '5' || c = '6' || c = '7' || c = '8' || c = '9'

/-- Model of Python `int(s)` restricted to an optional leading minus sign
followed by decimal digits; `none` models a raised `ValueError`.  (Python's
`int` also accepts surrounding whitespace, a `+` sign and `_` digit
separators; the program only ever applies it to outputs of `str(i)`, on
which the two agree.) -/
def pyInt (s : String) : Option Int :=
  match s.data with
  | [] => none
  | c :: rest =>
    if c = '-' then
      if !rest.isEmpty && rest.all isDig then
        some (-(decimalVal rest : Int))
      else none
    else
      if (c :: rest).all isDig then some ((decimalVal (c :: rest) : Int))
      else none

/-- The file content is empty or ends with a newline.  Every journal the
program itself writes satisfies this (every appended record ends in `'\n'`). -/
def NlTerm (s : String) : Prop := s = "" ∨ s.data.getLast? = some '\n'

/-- `l` is one whole journal line: nonempty, ends with `'\n'`, and contains
no interior newline. -/
def LineShape (l : String) : Bool :=
  l.data.getLast? == some '\n' && l.data.dropLast.all (fun c => c ≠ '\n')

/-- A token that survives the journal's text format intact: nonempty, no
whitespace (so `split` keeps it whole and `strip` cannot eat into it) and
no `'_'` (so operation ids parse back unambiguously). -/
def CleanTok (s : String) : Bool :=
  !s.data.isEmpty && s.data.all (fun c => !isPySpace c && c ≠ '_')

/-! ## The program (`src/main.py`) -/

/-- The three operation variants (`MoveOp`, `WithdrawOp`, `DepositOp`).
The timestamp is kept as the string that enters the operation id. -/
inductive Op where
  | move (ts src dst : String) (amt : Int)
  | withdraw (ts dst : String) (amt : Int)
  | deposit (ts dst : String) (amt : Int)
deriving DecidableEq, Repr

/-- `ID_SEPARATOR.join`, as used by the `id()` methods. -/
def idJoin : List String → String
  | [] => ""
  | [x] => x
  | x :: rest => x ++ "_" ++ idJoin rest

/-- `MoveOp.id` / `WithdrawOp.id` / `DepositOp.id`. -/
def Op.id : Op → String
  | .move ts src dst amt => idJoin ["mov", ts, src, dst, intToStr amt]
  | .withdraw ts dst amt => idJoin ["wit", ts, dst, intToStr amt]
  | .deposit ts dst amt => idJoin ["dep", ts, dst, intToStr amt]

/-- `BeginLogLine(oid).line()`. -/
def BeginLogLine (oid : String) : String := "BEGIN" ++ " " ++ oid ++ "\n"

/-- `WriteLogLine(dst, amt).line()`. -/
def WriteLogLine (dst : String) (amt : Int) : String :=
  "WRITE" ++ " " ++ dst ++ " " ++ intToStr amt ++ "\n"

/-- `ReadLogLine(dst, amt).line()`. -/
def ReadLogLine (dst : String) (amt : Int) : String :=
  "READ" ++ " " ++ dst ++ " " ++ intToStr amt ++ "\n"

/-- `CommitLogLine(err).line()`. -/
def CommitLogLine : Option String → String
  | none => "COMMIT" ++ "\n"
  | some err => "COMMIT" ++ " " ++ err ++ "\n"

/-- The insufficient-funds message `f"{ERROR}: insufficient funds: {curr} < {amt}"`. -/
def errMsg (curr amt : Int) : String :=
  "ERROR: insufficient funds: " ++ intToStr curr ++ " < " ++ intToStr amt

namespace DataStore

/-- `DataStore.log`: append one encoded record to the journal file. -/
def log (c : String) (line : String) : String := c ++ line

/-- The loop of `DataStore.read`, over the journal lines already reversed
(`for line in reversed(lines)`); `none` models the exception raised when a
`WRITE`-prefixed line does not split into exactly three tokens or its
amount token is not an integer literal. -/
def readLoop (dst : String) : List String → Option Int
  | [] => some 0
  | l :: rest =>
    if pyStartsWith l "WRITE" then
      match pySplit l with
      | [_, account, amt] => if account = dst then pyInt amt else readLoop dst rest
      | _ => none
    else readLoop dst rest

/-- `DataStore.read(dst)`: the balance derived from journal content `c`. -/
def read (c : String) (dst : String) : Option Int :=
  readLoop dst (pyReadlines c).reverse

/-- The loop of `DataStore.already_committed`; the `Bool` argument is the
`found_begin_with_oid` flag. -/
def acLoop (oid : String) : Bool → List String → Bool
  | _, [] => false
  | found, l :: rest =>
    let ls := pyStrip l
    let found' := found || pyIn oid ls
    if found' && ls = "COMMIT" then true else acLoop oid found' rest

/-- `DataStore.already_committed(op)` applied to `oid = op.id()`. -/
def already_committed (c : String) (oid : String) : Bool :=
  acLoop oid false (pyReadlines c)

/-- `DataStore.parse_op_from_id`; `none` models `ValueError` (unknown kind)
or a `TypeError`/`ValueError` from the constructor call. -/
def parse_op_from_id (oid : String) : Option Op :=
  if pyStartsWith oid "mov" then
    match (pySplitOn '_' oid).drop 1 with
    | [ts, src, dst, amt] => (pyInt amt).map (Op.move ts src dst)
    | _ => none
  else if pyStartsWith oid "wit" then
    match (pySplitOn '_' oid).drop 1 with
    | [ts, dst, amt] => (pyInt amt).map (Op.withdraw ts dst)
    | _ => none
  else if pyStartsWith oid "dep" then
    match (pySplitOn '_' oid).drop 1 with
    | [ts, dst, amt] => (pyInt amt).map (Op.deposit ts dst)
    | _ => none
  else none

/-- The index of the last line starting with `BEGIN`, as computed by the
forward scan in `DataStore.recover`. -/
def lastBeginIdx : List String → Option Nat
  | [] => none
  | l :: rest =>
    match lastBeginIdx rest with
    | some i => some (i + 1)
    | none => if pyStartsWith l "BEGIN" then some 0 else none

end DataStore

/-- The `handle` methods of `MoveOp`, `WithdrawOp` and `DepositOp` (they
share their prologue); returns the new journal content, or `none` when a
`DataStore.read` raises. -/
def Op.handle (op : Op) (write_begin : Bool) (c0 : String) : Option String :=
  if DataStore.already_committed c0 (Op.id op) then some c0 else
  let c1 := if write_begin then DataStore.log c0 (BeginLogLine (Op.id op)) else c0
  match op with
  | .move _ src dst amt =>
    match DataStore.read c1 src with
    | none => none
    | some curr =>
      let c2 := DataStore.log c1 (ReadLogLine src curr)
      if curr < amt then
        some (DataStore.log c2 (CommitLogLine (some (errMsg curr amt))))
      else
        let c3 := DataStore.log c2 (WriteLogLine src (curr - amt))
        match DataStore.read c3 dst with
        | none => none
        | some curr2 =>
          let c4 := DataStore.log c3 (ReadLogLine dst curr2)
          let c5 := DataStore.log c4 (WriteLogLine dst (curr2 + amt))
          some (DataStore.log c5 (CommitLogLine none))
  | .withdraw _ dst amt =>
    match DataStore.read c1 dst with
    | none => none
    | some curr =>
      let c2 := DataStore.log c1 (ReadLogLine dst curr)
      if curr < amt then
        some (DataStore.log c2 (CommitLogLine (some (errMsg curr amt))))
      else
        let c3 := DataStore.log c2 (WriteLogLine dst (curr - amt))
        some (DataStore.log c3 (CommitLogLine none))
  | .deposit _ dst amt =>
    match DataStore.read c1 dst with
    | none => none
    | some curr =>
      let c2 := DataStore.log c1 (ReadLogLine dst curr)
      let c3 := DataStore.log c2 (WriteLogLine dst (curr + amt))
      some (DataStore.log c3 (CommitLogLine none))

/-- The truncate-and-rewrite step of `DataStore.recover` (find the last
`BEGIN` line, keep everything up to and including it, write each kept line
back followed by an extra `NEWLINE` — exactly as
`f.writelines([line+NEWLINE for line in lines])` does). -/
def recoverTruncate (c : String) : String :=
  let lines := pyReadlines c
  match DataStore.lastBeginIdx lines with
  | none => c
  | some i => sjoin ((lines.take (i + 1)).map (fun l => l ++ "\n"))

/-- `DataStore.recover`: truncate at the last `BEGIN`, rewrite the file,
parse the operation id from the retained `BEGIN` line and replay it with
`write_begin=False`.  `none` models a raised exception. -/
def DataStore.recover (c : String) : Option String :=
  let lines := pyReadlines c
  match DataStore.lastBeginIdx lines with
  | none => some c
  | some i =>
    let lines' := lines.take (i + 1)
    let c' := sjoin (lines'.map (fun l => l ++ "\n"))
    match lines'[i]? with
    | none => none
    | some bl =>
      match (pySplit bl)[1]? with
      | none => none
      | some oid =>
        match DataStore.parse_op_from_id oid with
        | none => none
        | some op => Op.handle op false c'

/-- Run a list of operations one at a time (each with `write_begin=True`),
as the program's main loop does. -/
def runOps : List Op → String → Option String
  | [], c => some c
  | op :: rest, c =>
    match Op.handle op true c with
    | none => none
    | some c' => runOps rest c'

/-- Pointwise update of a balance assignment. -/
def upd (bal : String → Int) (k : String) (v : Int) : String → Int :=
  fun x => if x = k then v else bal x

/-- The abstract ledger semantics of one operation: deposits add, withdraws
subtract when covered, moves transfer when covered; insufficient-funds
attempts change nothing.  The resulting assignment is, per account, the
arithmetic sum of the signed amounts applied by successful operations. -/
def applyOp (bal : String → Int) : Op → (String → Int)
  | .deposit _ a m => upd bal a (bal a + m)
  | .withdraw _ a m => if bal a < m then bal else upd bal a (bal a - m)
  | .move _ s d m =>
    if bal s < m then bal
    else
      let b1 := upd bal s (bal s - m)
      upd b1 d (b1 d + m)

/-- The account whose balance an operation checks first. -/
def Op.srcAcct : Op → String
  | .move _ src _ _ => src
  | .withdraw _ dst _ => dst
  | .deposit _ dst _ => dst

/-- The account an operation credits (for `move`, the destination). -/
def Op.dstAcct : Op → String
  | .move _ _ dst _ => dst
  | .withdraw _ dst _ => dst
  | .deposit _ dst _ => dst

/-- The operation's amount. -/
def Op.amt : Op → Int
  | .move _ _ _ m => m
  | .withdraw _ _ m => m
  | .deposit _ _ m => m

/-- All string fields of the operation are clean tokens. -/
def CleanOp : Op → Bool
  | .move ts src dst _ => CleanTok ts && CleanTok src && CleanTok dst
  | .withdraw ts dst _ => CleanTok ts && CleanTok dst
  | .deposit ts dst _ => CleanTok ts && CleanTok dst

/-- The records a fresh execution of `op` appends after its `BEGIN`, given
that the balance of `op.srcAcct` reads as `bs` and (for a move, after the
source write) the balance of the destination reads as `bd` when the
destination differs from the source. -/
def txRecords : Op → Int → Int → List String
  | .deposit _ a m, bs, _ =>
    [ReadLogLine a bs, WriteLogLine a (bs + m), CommitLogLine none]
  | .withdraw _ a m, bs, _ =>
    if bs < m then [ReadLogLine a bs, CommitLogLine (some (errMsg bs m))]
    else [ReadLogLine a bs, WriteLogLine a (bs - m), CommitLogLine none]
  | .move _ src dst m, bs, bd =>
    if bs < m then [ReadLogLine src bs, CommitLogLine (some (errMsg bs m))]
    else
      [ReadLogLine src bs, WriteLogLine src (bs - m),
       ReadLogLine dst (if src = dst then bs - m else bd),
       WriteLogLine dst ((if src = dst then bs - m else bd) + m),
       CommitLogLine none]

/-- The `WRITE`-prefixed journal lines, in file order; `DataStore.read`
depends on the journal only through them. -/
def wlines (c : String) : List String :=
  (pyReadlines c).filter (fun l => pyStartsWith l "WRITE")

/-- A line that a scan of `DataStore.read` for account `a` steps over
without returning and without raising: either it is not `WRITE`-prefixed,
or it is a well-formed write for a different account. -/
def SkipFor (a : String) (l : String) : Prop :=
  pyStartsWith l "WRITE" = false ∨
    ∃ b v, CleanTok b = true ∧ b ≠ a ∧ l = WriteLogLine b v

/-- No `'_'` occurs in the operation's timestamp or account fields (the
amount never contains one), so its id splits back into its fields. -/
def NoUndOp : Op → Bool
  | .move ts src dst _ => ('_' ∉ ts.data : Bool) && ('_' ∉ src.data : Bool) && ('_' ∉ dst.data : Bool)
  | .withdraw ts dst _ => ('_' ∉ ts.data : Bool) && ('_' ∉ dst.data : Bool)
  | .deposit ts dst _ => ('_' ∉ ts.data : Bool) && ('_' ∉ dst.data : Bool)

/-- Invariant of journals produced by running clean operations from the
empty journal: the content is newline-terminated; every line is either the
`BEGIN` line of one of the already-executed operations or is free of
`'_'`; and `DataStore.read` returns `bal` on every clean account. -/
def JInv (done : List Op) (bal : String → Int) (c : String) : Prop :=
  NlTerm c ∧
  (∀ l ∈ pyReadlines c,
    (∃ op', CleanOp op' = true ∧ op' ∈ done ∧ l = BeginLogLine (Op.id op')) ∨
      '_' ∉ l.data) ∧
  (∀ x, CleanTok x = true → DataStore.read c x = some (bal x))

/-- No operation id in the list occurs as a substring of another one (in
particular all ids are distinct). -/
def PairwiseNoSub (ops : List Op) : Prop :=
  List.Pairwise
    (fun o1 o2 => pyIn (Op.id o1) (Op.id o2) = false ∧ pyIn (Op.id o2) (Op.id o1) = false) ops

/-! ## Basic lemmas about the string model -/

theorem strExt {s t : String} (h : s.data = t.data) : s = t :=
  congrArg String.mk h

@[simp] theorem sjoin_nil : sjoin [] = "" := rfl

@[simp] theorem sjoin_cons (s : String) (L : List String) :
    sjoin (s :: L) = s ++ sjoin L := rfl

theorem sjoin_append (L1 L2 : List String) :
    sjoin (L1 ++ L2) = sjoin L1 ++ sjoin L2 := by
  induction L1 with
  | nil =>
    simp only [List.nil_append, sjoin_nil]
    exact (strExt (by simp [String.data_append])).symm
  | cons s L ih =>
    simp only [List.cons_append, sjoin_cons, ih, String.append_assoc]

theorem isDig_cases {c : Char} (h : isDig c = true) :
    c = '0' ∨ c = '1' ∨ c = '2' ∨ c = '3' ∨ c = '4' ∨
    c = '5' ∨ c = '6' ∨ c = '7' ∨ c = '8' ∨ c = '9' := by
  have := h
  simp only [isDig, Bool.or_eq_true, decide_eq_true_eq] at this
  tauto

theorem isDig_facts {c : Char} (h : isDig c = true) :
    isPySpace c = false ∧ c ≠ '_' ∧ c ≠ '\n' ∧ c ≠ '-' := by
  rcases isDig_cases h with h | h | h | h | h | h | h | h | h | h <;> subst h <;> decide

theorem isDig_digitChar {d : Nat} (h : d < 10) :
    isDig (Nat.digitChar d) = true := by
  interval_cases d <;> decide

theorem digitVal_digitChar {d : Nat} (h : d < 10) :
    digitVal (Nat.digitChar d) = d := by
  interval_cases d <;> decide

theorem decimalVal_concat (xs : List Char) (c : Char) :
    decimalVal (xs ++ [c]) = 10 * decimalVal xs + digitVal c := by
  simp [decimalVal, List.foldl_append]

theorem natToStrAux_spec :
    ∀ fuel n, n < fuel →
      (natToStrAux fuel n).all isDig = true ∧ natToStrAux fuel n ≠ [] ∧
        decimalVal (natToStrAux fuel n) = n := by
  intro fuel
  induction fuel with
  | zero => intro n h; omega
  | succ fuel ih =>
    intro n h
    by_cases h10 : n < 10
    · refine ⟨?_, ?_, ?_⟩
      · simp [natToStrAux, h10, isDig_digitChar h10]
      · simp [natToStrAux, h10]
      · simp [natToStrAux, h10, decimalVal, digitVal_digitChar h10]
    · have hdiv : n / 10 < fuel := by
        have := Nat.div_lt_self (by omega : 0 < n) (by omega : 1 < 10)
        omega
      obtain ⟨ha, hne, hval⟩ := ih (n / 10) hdiv
      refine ⟨?_, ?_, ?_⟩
      · simp only [natToStrAux, if_neg h10, List.all_append, ha, Bool.true_and,
          List.all_cons, List.all_nil, Bool.and_true]
        exact isDig_digitChar (by omega)
      · simp [natToStrAux, h10]
      · simp only [natToStrAux, if_neg h10]
        rw [decimalVal_concat, hval, digitVal_digitChar (by omega : n % 10 < 10)]
        omega

theorem intToStr_data_nonneg {i : Int} (h : ¬ i < 0) :
    (intToStr i).data = natToStrAux (i.toNat + 1) i.toNat := by
  simp [intToStr, h]

theorem intToStr_data_neg {i : Int} (h : i < 0) :
    (intToStr i).data = '-' :: natToStrAux (i.natAbs + 1) i.natAbs := by
  simp [intToStr, h]

theorem intToStr_ne_nil (i : Int) : (intToStr i).data ≠ [] := by
  by_cases h : i < 0
  · simp [intToStr_data_neg h]
  · rw [intToStr_data_nonneg h]
    exact (natToStrAux_spec _ _ (Nat.lt_succ_self _)).2.1

theorem intToStr_chars {i : Int} {c : Char} (hc : c ∈ (intToStr i).data) :
    isDig c = true ∨ c = '-' := by
  by_cases h : i < 0
  · rw [intToStr_data_neg h] at hc
    rcases List.mem_cons.mp hc with h' | h'
    · exact Or.inr h'
    · left
      have := (natToStrAux_spec _ _ (Nat.lt_succ_self i.natAbs)).1
      exact (List.all_eq_true.mp this) c h'
  · rw [intToStr_data_nonneg h] at hc
    left
    have := (natToStrAux_spec _ _ (Nat.lt_succ_self i.toNat)).1
    exact (List.all_eq_true.mp this) c hc

theorem intToStr_char_facts {i : Int} {c : Char} (hc : c ∈ (intToStr i).data) :
    isPySpace c = false ∧ c ≠ '_' ∧ c ≠ '\n' := by
  rcases intToStr_chars hc with h | h
  · exact ⟨(isDig_facts h).1, (isDig_facts h).2.1, (isDig_facts h).2.2.1⟩
  · subst h; refine ⟨by decide, by decide, by decide⟩

theorem intToStr_getLast_isDig (i : Int) :
    ∃ c, (intToStr i).data.getLast? = some c ∧ isDig c = true := by
  by_cases h : i < 0
  · obtain ⟨ha, hne, _⟩ := natToStrAux_spec (i.natAbs + 1) i.natAbs (Nat.lt_succ_self _)
    rw [intToStr_data_neg h]
    have : ('-' :: natToStrAux (i.natAbs + 1) i.natAbs).getLast? =
        (natToStrAux (i.natAbs + 1) i.natAbs).getLast? := by
      have := List.getLast?_append_of_ne_nil ['-'] hne
      simpa using this
    rw [this]
    rcases List.exists_mem_of_ne_nil _ hne with ⟨c0, _⟩
    obtain ⟨d, hd⟩ : ∃ d, (natToStrAux (i.natAbs + 1) i.natAbs).getLast? = some d := by
      cases hx : (natToStrAux (i.natAbs + 1) i.natAbs).getLast? with
      | none => exact absurd (List.getLast?_eq_none_iff.mp hx) hne
      | some d => exact ⟨d, rfl⟩
    refine ⟨d, hd, ?_⟩
    exact (List.all_eq_true.mp ha) d (List.mem_of_mem_getLast? hd)
  · obtain ⟨ha, hne, _⟩ := natToStrAux_spec (i.toNat + 1) i.toNat (Nat.lt_succ_self _)
    rw [intToStr_data_nonneg h]
    obtain ⟨d, hd⟩ : ∃ d, (natToStrAux (i.toNat + 1) i.toNat).getLast? = some d := by
      cases hx : (natToStrAux (i.toNat + 1) i.toNat).getLast? with
      | none => exact absurd (List.getLast?_eq_none_iff.mp hx) hne
      | some d => exact ⟨d, rfl⟩
    refine ⟨d, hd, ?_⟩
    exact (List.all_eq_true.mp ha) d (List.mem_of_mem_getLast? hd)

theorem pyInt_intToStr (i : Int) : pyInt (intToStr i) = some i := by
  by_cases h : i < 0
  · obtain ⟨ha, hne, hval⟩ := natToStrAux_spec (i.natAbs + 1) i.natAbs (Nat.lt_succ_self _)
    rw [pyInt, intToStr_data_neg h]
    simp only [if_pos rfl]
    have hcond : (!(natToStrAux (i.natAbs + 1) i.natAbs).isEmpty &&
        (natToStrAux (i.natAbs + 1) i.natAbs).all isDig) = true := by
      simp [ha, List.isEmpty_iff, hne]
    have hi : -((i.natAbs : Nat) : Int) = i := by omega
    rw [if_pos hcond, hval, hi]
    simp
  · obtain ⟨ha, hne, hval⟩ := natToStrAux_spec (i.toNat + 1) i.toNat (Nat.lt_succ_self _)
    rw [pyInt, intToStr_data_nonneg h]
    rcases hx : natToStrAux (i.toNat + 1) i.toNat with _ | ⟨c, rest⟩
    · exact absurd hx hne
    · rw [hx] at ha hval
      have hcdig : isDig c = true := (List.all_eq_true.mp ha) c (by simp)
      have hcne : ¬ c = '-' := (isDig_facts hcdig).2.2.2
      have hi : ((i.toNat : Nat) : Int) = i := by omega
      simp only [if_neg hcne, ha, if_pos rfl, hval, hi]
      simp

/-! ## Shape of the rendered journal lines -/

theorem empty_sappend (s : String) : "" ++ s = s :=
  strExt (by simp [String.data_append])

theorem data_BeginLogLine (oid : String) :
    (BeginLogLine oid).data = 'B':: 'E':: 'G':: 'I':: 'N':: ' ':: (oid.data ++ ['\n']) := rfl

theorem data_WriteLogLine (a : String) (v : Int) :
    (WriteLogLine a v).data =
      'W':: 'R':: 'I':: 'T':: 'E':: ' ':: (a.data ++ ' ' :: ((intToStr v).data ++ ['\n'])) := by
  show 'W':: 'R':: 'I':: 'T':: 'E':: ' ':: (((a.data ++ [' ']) ++ (intToStr v).data) ++ ['\n']) = _
  simp

theorem data_ReadLogLine (a : String) (v : Int) :
    (ReadLogLine a v).data =
      'R':: 'E':: 'A':: 'D':: ' ':: (a.data ++ ' ' :: ((intToStr v).data ++ ['\n'])) := by
  show 'R':: 'E':: 'A':: 'D':: ' ':: (((a.data ++ [' ']) ++ (intToStr v).data) ++ ['\n']) = _
  simp

theorem data_CommitNone : (CommitLogLine none).data = ['C','O','M','M','I','T','\n'] := rfl

theorem data_CommitSome (e : String) :
    (CommitLogLine (some e)).data = 'C':: 'O':: 'M':: 'M':: 'I':: 'T':: ' ':: (e.data ++ ['\n']) := rfl

theorem sw_begin_BEGIN (oid : String) : pyStartsWith (BeginLogLine oid) "BEGIN" = true := rfl

theorem sw_begin_WRITE (oid : String) : pyStartsWith (BeginLogLine oid) "WRITE" = false := rfl

theorem sw_write_WRITE (a : String) (v : Int) :
    pyStartsWith (WriteLogLine a v) "WRITE" = true := rfl

theorem sw_write_BEGIN (a : String) (v : Int) :
    pyStartsWith (WriteLogLine a v) "BEGIN" = false := rfl

theorem sw_read_WRITE (a : String) (v : Int) :
    pyStartsWith (ReadLogLine a v) "WRITE" = false := rfl

theorem sw_read_BEGIN (a : String) (v : Int) :
    pyStartsWith (ReadLogLine a v) "BEGIN" = false := rfl

theorem sw_commit_WRITE (e : Option String) :
    pyStartsWith (CommitLogLine e) "WRITE" = false := by
  cases e <;> rfl

theorem sw_commit_BEGIN (e : Option String) :
    pyStartsWith (CommitLogLine e) "BEGIN" = false := by
  cases e <;> rfl

theorem sw_blank_WRITE : pyStartsWith "\n" "WRITE" = false := rfl

theorem sw_blank_BEGIN : pyStartsWith "\n" "BEGIN" = false := rfl

/-! ## Structure of `pyReadlines` -/

theorem readlinesL_consume :
    ∀ (body : List Char), '\n' ∉ body → ∀ rest acc,
      readlinesL (body ++ '\n' :: rest) acc =
        (acc.reverse ++ body ++ ['\n']) :: readlinesL rest [] := by
  intro body
  induction body with
  | nil => intro _ rest acc; simp [readlinesL]
  | cons c body ih =>
    intro h rest acc
    have hc : ¬ c = '\n' := fun hcc => h (by simp [hcc])
    have hb : '\n' ∉ body := fun hcc => h (by simp [hcc])
    rw [List.cons_append]
    have step : readlinesL (c :: (body ++ '\n' :: rest)) acc
        = readlinesL (body ++ '\n' :: rest) (c :: acc) := by
      simp only [readlinesL, if_neg hc]
    rw [step, ih hb rest (c :: acc)]
    simp

theorem readlinesL_flatten : ∀ (xs acc : List Char),
    (readlinesL xs acc).flatten = acc.reverse ++ xs := by
  intro xs
  induction xs with
  | nil =>
    intro acc
    cases acc with
    | nil => simp [readlinesL]
    | cons a as => simp [readlinesL]
  | cons c xs ih =>
    intro acc
    by_cases hc : c = '\n'
    · subst hc
      simp [readlinesL, ih []]
    · simp only [readlinesL, if_neg hc]
      rw [ih (c :: acc)]
      simp

theorem readlinesL_shape : ∀ (xs : List Char), ∀ (acc : List Char),
    xs.getLast? = some '\n' → '\n' ∉ acc →
    ∀ l ∈ readlinesL xs acc, ∃ body, l = body ++ ['\n'] ∧ '\n' ∉ body := by
  intro xs
  induction xs with
  | nil => intro acc h; simp at h
  | cons c xs ih =>
    intro acc h hacc l hl
    by_cases hc : c = '\n'
    · subst hc
      rw [show readlinesL ('\n' :: xs) acc = (acc.reverse ++ ['\n']) :: readlinesL xs []
        from by simp [readlinesL]] at hl
      rcases List.mem_cons.mp hl with h1 | hl
      · exact ⟨acc.reverse, h1, by simpa using hacc⟩
      · by_cases hxs : xs = []
        · subst hxs; simp [readlinesL] at hl
        · have h2 : ('\n' :: xs).getLast? = xs.getLast? := by
            have := List.getLast?_append_of_ne_nil ['\n'] hxs
            simpa using this
          rw [h2] at h
          exact ih [] h (by simp) l hl
    · have hxs : xs ≠ [] := by
        rintro rfl
        simp at h
        exact hc h
      have h2 : (c :: xs).getLast? = xs.getLast? := by
        have := List.getLast?_append_of_ne_nil [c] hxs
        simpa using this
      rw [h2] at h
      simp only [readlinesL, if_neg hc] at hl
      exact ih (c :: acc) h (by simpa using ⟨fun h' => hc h'.symm, hacc⟩) l hl

theorem lineShape_iff {l : String} :
    LineShape l = true ↔ ∃ body, l.data = body ++ ['\n'] ∧ '\n' ∉ body := by
  constructor
  · intro h
    simp only [LineShape, Bool.and_eq_true, beq_iff_eq] at h
    obtain ⟨h1, h2⟩ := h
    refine ⟨l.data.dropLast, ?_, ?_⟩
    · exact (List.dropLast_append_getLast? '\n' (by simp [h1])).symm
    · intro hc
      have := List.all_eq_true.mp h2 _ hc
      simp at this
  · rintro ⟨body, hd, hb⟩
    simp only [LineShape, hd, Bool.and_eq_true, beq_iff_eq]
    constructor
    · simp
    · have : (body ++ ['\n']).dropLast = body := by simp
      rw [this, List.all_eq_true]
      intro c hc
      simp only [decide_eq_true_eq]
      intro h'
      exact hb (h' ▸ hc)

theorem readlines_cons_line {l : String} (hl : LineShape l = true) (rest : String) :
    pyReadlines (l ++ rest) = l :: pyReadlines rest := by
  obtain ⟨body, hd, hb⟩ := lineShape_iff.mp hl
  unfold pyReadlines
  rw [String.data_append, hd, List.append_assoc, List.singleton_append,
    readlinesL_consume body hb]
  simp only [List.reverse_nil, List.nil_append, List.map_cons]
  congr 1
  rw [← hd]

theorem readlines_sjoin (L : List String) (hL : ∀ l ∈ L, LineShape l = true) (rest : String) :
    pyReadlines (sjoin L ++ rest) = L ++ pyReadlines rest := by
  induction L with
  | nil => rw [sjoin_nil, empty_sappend]; simp
  | cons l L ih =>
    rw [sjoin_cons, String.append_assoc,
      readlines_cons_line (hL l (by simp)) (sjoin L ++ rest)]
    rw [ih (fun x hx => hL x (by simp [hx]))]
    simp

theorem sjoin_map_mk : ∀ (L : List (List Char)),
    (sjoin (L.map String.mk)).data = L.flatten := by
  intro L
  induction L with
  | nil => simp
  | cons a L ih => simp [String.data_append, ih]

theorem nlterm_lines {c : String} (h : NlTerm c) :
    (∀ l ∈ pyReadlines c, LineShape l = true) ∧ sjoin (pyReadlines c) = c := by
  rcases h with h | h
  · subst h
    exact ⟨by intro l hl; simp [pyReadlines, readlinesL] at hl, rfl⟩
  · constructor
    · intro l hl
      simp only [pyReadlines, List.mem_map] at hl
      obtain ⟨ld, hmem, rfl⟩ := hl
      obtain ⟨body, rfl, hb⟩ := readlinesL_shape c.data [] h (by simp) ld hmem
      exact lineShape_iff.mpr ⟨body, rfl, hb⟩
    · apply strExt
      rw [pyReadlines, sjoin_map_mk, readlinesL_flatten]
      simp

theorem readlines_append {c : String} (h : NlTerm c) (d : String) :
    pyReadlines (c ++ d) = pyReadlines c ++ pyReadlines d := by
  obtain ⟨hL, hj⟩ := nlterm_lines h
  conv_lhs => rw [← hj]
  exact readlines_sjoin _ hL d

/-! ## `strip`, substring and `split` lemmas -/

theorem gl_app {l r : List Char} (h : r ≠ []) : (l ++ r).getLast? = r.getLast? :=
  List.getLast?_append_of_ne_nil l h

theorem gl_cons {c : Char} {l : List Char} (h : l ≠ []) : (c :: l).getLast? = l.getLast? := by
  have h2 : ([c] ++ l).getLast? = l.getLast? := gl_app h
  simpa using h2

theorem cleanTok_ne_nil {s : String} (h : CleanTok s = true) : s.data ≠ [] := by
  intro hn
  simp only [CleanTok, hn] at h
  simp at h

theorem cleanTok_chars {s : String} (h : CleanTok s = true) :
    ∀ c ∈ s.data, isPySpace c = false ∧ c ≠ '_' := by
  simp only [CleanTok, Bool.and_eq_true, Bool.not_eq_true', List.isEmpty_iff] at h
  intro c hc
  have := List.all_eq_true.mp h.2 c hc
  simp only [Bool.and_eq_true, Bool.not_eq_true', decide_eq_true_eq] at this
  exact this

theorem dropWhile_all_not {l : List Char} (h : ∀ c ∈ l, isPySpace c = false) :
    l.dropWhile isPySpace = l := by
  cases l with
  | nil => rfl
  | cons c t => simp [List.dropWhile_cons, h c (by simp)]

theorem stripL_all_not {l : List Char} (h : ∀ c ∈ l, isPySpace c = false) : stripL l = l := by
  unfold stripL
  rw [dropWhile_all_not h,
    dropWhile_all_not (fun c hc => h c (List.mem_reverse.mp hc))]
  simp

theorem stripL_line (c0 : Char) (t : List Char) (hc0 : isPySpace c0 = false)
    (lc : Char) (hlast : (c0 :: t).getLast? = some lc) (hlc : isPySpace lc = false) :
    stripL ((c0 :: t) ++ ['\n']) = c0 :: t := by
  unfold stripL
  have h1 : ((c0 :: t) ++ ['\n']).dropWhile isPySpace = (c0 :: t) ++ ['\n'] := by
    simp [List.dropWhile_cons, hc0]
  rw [h1, List.reverse_append]
  have h2 : (['\n'].reverse : List Char) = ['\n'] := rfl
  rw [h2]
  have h3 : ('\n' :: (c0 :: t).reverse).dropWhile isPySpace
      = ((c0 :: t).reverse).dropWhile isPySpace := by
    simp [List.dropWhile_cons, isPySpace]
  rw [List.singleton_append, h3]
  obtain ⟨r, hr⟩ : ∃ r, (c0 :: t).reverse = lc :: r := by
    have hh : (c0 :: t).reverse.head? = some lc := by
      rw [List.head?_reverse]; exact hlast
    cases hrev : (c0 :: t).reverse with
    | nil => rw [hrev] at hh; simp at hh
    | cons a r =>
      rw [hrev] at hh
      simp only [List.head?_cons, Option.some.injEq] at hh
      exact ⟨r, by rw [hh]⟩
  rw [hr]
  have h4 : (lc :: r).dropWhile isPySpace = lc :: r := by
    simp [List.dropWhile_cons, hlc]
  rw [h4, ← hr]
  simp

theorem subL_skip (hd : Char) (tl : List Char) :
    ∀ (pre : List Char), hd ∉ pre → ∀ rest,
      subL (hd :: tl) (pre ++ rest) = subL (hd :: tl) rest := by
  intro pre
  induction pre with
  | nil => intro _ rest; rfl
  | cons c p ih =>
    intro h rest
    have hne : (hd == c) = false := by
      simp only [beq_eq_false_iff_ne, ne_eq]
      rintro rfl
      exact h (by simp)
    have hpre : ((hd :: tl).isPrefixOf (c :: (p ++ rest))) = false := by
      simp [List.isPrefixOf, hne]
    rw [List.cons_append]
    simp only [subL, hpre, Bool.false_or]
    exact ih (fun hm => h (by simp [hm])) rest

theorem subL_mem {n : List Char} : ∀ {h : List Char}, subL n h = true →
    ∀ {c}, c ∈ n → c ∈ h := by
  intro h
  induction h with
  | nil =>
    intro hs c hc
    simp only [subL, List.isEmpty_iff] at hs
    subst hs
    simp at hc
  | cons a t ih =>
    intro hs c hc
    simp only [subL, Bool.or_eq_true] at hs
    rcases hs with hs | hs
    · exact (List.isPrefixOf_iff_prefix.mp hs).subset hc
    · exact List.mem_cons_of_mem a (ih hs hc)

theorem subL_here (n : List Char) : ∀ (pre post : List Char),
    subL n (pre ++ (n ++ post)) = true := by
  intro pre
  induction pre with
  | nil =>
    intro post
    cases n with
    | nil =>
      cases post with
      | nil => rfl
      | cons a t => rfl
    | cons c t =>
      have : ((c :: t).isPrefixOf ((c :: t) ++ post)) = true :=
        List.isPrefixOf_iff_prefix.mpr (List.prefix_append _ _)
      simp [subL, this]
  | cons a p ih =>
    intro post
    rw [List.cons_append]
    simp [subL, ih post]

theorem splitWsL_consume : ∀ (t : List Char), (∀ c ∈ t, isPySpace c = false) →
    ∀ rest acc, splitWsL (t ++ rest) acc = splitWsL rest (t.reverse ++ acc) := by
  intro t
  induction t with
  | nil => intro _ rest acc; simp
  | cons c tl ih =>
    intro h rest acc
    rw [List.cons_append]
    have step : splitWsL (c :: (tl ++ rest)) acc = splitWsL (tl ++ rest) (c :: acc) := by
      simp only [splitWsL, h c (by simp)]
      simp
    rw [step, ih (fun x hx => h x (by simp [hx])) rest (c :: acc)]
    simp

theorem splitWsL_break (rest acc : List Char) (hacc : acc ≠ []) :
    splitWsL (' ' :: rest) acc = acc.reverse :: splitWsL rest [] := by
  simp [splitWsL, hacc, show isPySpace ' ' = true from rfl]

theorem splitWsL_last (acc : List Char) (hacc : acc ≠ []) :
    splitWsL ['\n'] acc = [acc.reverse] := by
  simp [splitWsL, hacc, show isPySpace '\n' = true from rfl]

theorem pySplit_three (k a v : String)
    (hk : k.data ≠ []) (hkc : ∀ c ∈ k.data, isPySpace c = false)
    (ha : a.data ≠ []) (hac : ∀ c ∈ a.data, isPySpace c = false)
    (hv : v.data ≠ []) (hvc : ∀ c ∈ v.data, isPySpace c = false) :
    pySplit (k ++ " " ++ a ++ " " ++ v ++ "\n") = [k, a, v] := by
  unfold pySplit
  have hdata : (k ++ " " ++ a ++ " " ++ v ++ "\n").data
      = k.data ++ ' ' :: (a.data ++ ' ' :: (v.data ++ ['\n'])) := by
    simp [String.data_append]
  rw [hdata, splitWsL_consume k.data hkc _ [],
    splitWsL_break _ _ (by simpa using hk),
    splitWsL_consume a.data hac _ [],
    splitWsL_break _ _ (by simpa using ha),
    splitWsL_consume v.data hvc _ [],
    splitWsL_last _ (by simpa using hv)]
  simp

theorem pySplit_two (k a : String)
    (hk : k.data ≠ []) (hkc : ∀ c ∈ k.data, isPySpace c = false)
    (ha : a.data ≠ []) (hac : ∀ c ∈ a.data, isPySpace c = false) :
    pySplit (k ++ " " ++ a ++ "\n") = [k, a] := by
  unfold pySplit
  have hdata : (k ++ " " ++ a ++ "\n").data
      = k.data ++ ' ' :: (a.data ++ ['\n']) := by
    simp [String.data_append]
  rw [hdata, splitWsL_consume k.data hkc _ [],
    splitWsL_break _ _ (by simpa using hk),
    splitWsL_consume a.data hac _ [],
    splitWsL_last _ (by simpa using ha)]
  simp

theorem splitSepL_consume (sep : Char) : ∀ (t : List Char), sep ∉ t →
    ∀ rest acc, splitSepL sep (t ++ rest) acc = splitSepL sep rest (t.reverse ++ acc) := by
  intro t
  induction t with
  | nil => intro _ rest acc; simp
  | cons c tl ih =>
    intro h rest acc
    have hc : ¬ c = sep := fun hcc => h (by simp [hcc])
    rw [List.cons_append]
    have step : splitSepL sep (c :: (tl ++ rest)) acc = splitSepL sep (tl ++ rest) (c :: acc) := by
      simp only [splitSepL, if_neg hc]
    rw [step, ih (fun hm => h (by simp [hm])) rest (c :: acc)]
    simp

theorem splitSepL_hit (sep : Char) (rest acc : List Char) :
    splitSepL sep (sep :: rest) acc = acc.reverse :: splitSepL sep rest [] := by
  simp [splitSepL]

theorem data_idJoin_cons (x y : String) (rest : List String) :
    (idJoin (x :: y :: rest)).data = x.data ++ '_' :: (idJoin (y :: rest)).data := by
  show (x.data ++ ['_']) ++ (idJoin (y :: rest)).data = _
  simp

theorem pySplitOn_idJoin : ∀ (parts : List String), parts ≠ [] →
    (∀ p ∈ parts, '_' ∉ p.data) → pySplitOn '_' (idJoin parts) = parts := by
  intro parts
  induction parts with
  | nil => intro h; exact absurd rfl h
  | cons x rest ih =>
    intro _ hp
    cases rest with
    | nil =>
      unfold pySplitOn
      rw [show idJoin [x] = x from rfl,
        show x.data = x.data ++ ([] : List Char) from (by simp),
        splitSepL_consume '_' x.data (hp x (by simp)) [] []]
      simp [splitSepL]
    | cons y rest2 =>
      unfold pySplitOn
      rw [data_idJoin_cons x y rest2,
        splitSepL_consume '_' x.data (hp x (by simp)) _ [],
        splitSepL_hit]
      have hrec := ih (by simp) (fun p hp' => hp p (by simp [hp']))
      unfold pySplitOn at hrec
      simp only [List.map_cons, hrec]
      simp

/-! ## Structure of operation ids -/

theorem data_id_move (ts src dst : String) (m : Int) :
    (Op.id (Op.move ts src dst m)).data =
      'm':: 'o':: 'v':: '_':: (ts.data ++ '_' :: (src.data ++ '_' :: (dst.data ++ '_' :: (intToStr m).data))) := by
  rw [Op.id, data_idJoin_cons, data_idJoin_cons, data_idJoin_cons, data_idJoin_cons]
  rfl

theorem data_id_withdraw (ts dst : String) (m : Int) :
    (Op.id (Op.withdraw ts dst m)).data =
      'w':: 'i':: 't':: '_':: (ts.data ++ '_' :: (dst.data ++ '_' :: (intToStr m).data)) := by
  rw [Op.id, data_idJoin_cons, data_idJoin_cons, data_idJoin_cons]
  rfl

theorem data_id_deposit (ts dst : String) (m : Int) :
    (Op.id (Op.deposit ts dst m)).data =
      'd':: 'e':: 'p':: '_':: (ts.data ++ '_' :: (dst.data ++ '_' :: (intToStr m).data)) := by
  rw [Op.id, data_idJoin_cons, data_idJoin_cons, data_idJoin_cons]
  rfl

theorem id_shape (op : Op) :
    ∃ k t, (Op.id op).data = k :: t ∧ (k = 'm' ∨ k = 'w' ∨ k = 'd') := by
  cases op with
  | move ts src dst m => exact ⟨'m', _, data_id_move ts src dst m, Or.inl rfl⟩
  | withdraw ts dst m => exact ⟨'w', _, data_id_withdraw ts dst m, Or.inr (Or.inl rfl)⟩
  | deposit ts dst m => exact ⟨'d', _, data_id_deposit ts dst m, Or.inr (Or.inr rfl)⟩

theorem id_ne_nil (op : Op) : (Op.id op).data ≠ [] := by
  obtain ⟨k, t, h, _⟩ := id_shape op
  simp [h]

theorem id_underscore (op : Op) : '_' ∈ (Op.id op).data := by
  cases op with
  | move ts src dst m => rw [data_id_move]; simp
  | withdraw ts dst m => rw [data_id_withdraw]; simp
  | deposit ts dst m => rw [data_id_deposit]; simp

theorem id_data_split (op : Op) :
    ∃ pre, (Op.id op).data = pre ++ (intToStr (Op.amt op)).data := by
  cases op with
  | move ts src dst m =>
    exact ⟨'m':: 'o':: 'v':: '_':: (ts.data ++ '_' :: (src.data ++ '_' :: (dst.data ++ ['_']))),
      by rw [data_id_move]; simp [Op.amt]⟩
  | withdraw ts dst m =>
    exact ⟨'w':: 'i':: 't':: '_':: (ts.data ++ '_' :: (dst.data ++ ['_'])),
      by rw [data_id_withdraw]; simp [Op.amt]⟩
  | deposit ts dst m =>
    exact ⟨'d':: 'e':: 'p':: '_':: (ts.data ++ '_' :: (dst.data ++ ['_'])),
      by rw [data_id_deposit]; simp [Op.amt]⟩

theorem id_getLast (op : Op) :
    ∃ lc, (Op.id op).data.getLast? = some lc ∧ isDig lc = true := by
  obtain ⟨pre, hp⟩ := id_data_split op
  obtain ⟨c, hc, hdig⟩ := intToStr_getLast_isDig (Op.amt op)
  exact ⟨c, by rw [hp, gl_app (intToStr_ne_nil _), hc], hdig⟩

theorem cleanOp_move {ts src dst : String} {m : Int}
    (h : CleanOp (Op.move ts src dst m) = true) :
    CleanTok ts = true ∧ CleanTok src = true ∧ CleanTok dst = true := by
  have := h
  simp only [CleanOp, Bool.and_eq_true] at this
  tauto

theorem cleanOp_withdraw {ts dst : String} {m : Int}
    (h : CleanOp (Op.withdraw ts dst m) = true) :
    CleanTok ts = true ∧ CleanTok dst = true := by
  simpa [CleanOp, Bool.and_eq_true] using h

theorem cleanOp_deposit {ts dst : String} {m : Int}
    (h : CleanOp (Op.deposit ts dst m) = true) :
    CleanTok ts = true ∧ CleanTok dst = true := by
  simpa [CleanOp, Bool.and_eq_true] using h

theorem id_noWs {op : Op} (h : CleanOp op = true) :
    ∀ c ∈ (Op.id op).data, isPySpace c = false := by
  cases op with
  | move ts src dst m =>
    obtain ⟨h1, h2, h3⟩ := cleanOp_move h
    intro c hc
    rw [data_id_move] at hc
    simp only [List.mem_cons, List.mem_append] at hc
    rcases hc with rfl | rfl | rfl | rfl | hc
    · rfl
    · rfl
    · rfl
    · rfl
    rcases hc with hc | hc
    · exact (cleanTok_chars h1 c hc).1
    rcases hc with rfl | hc
    · rfl
    rcases hc with hc | hc
    · exact (cleanTok_chars h2 c hc).1
    rcases hc with rfl | hc
    · rfl
    rcases hc with hc | hc
    · exact (cleanTok_chars h3 c hc).1
    rcases hc with rfl | hc
    · rfl
    · exact (intToStr_char_facts hc).1
  | withdraw ts dst m =>
    obtain ⟨h1, h2⟩ := cleanOp_withdraw h
    intro c hc
    rw [data_id_withdraw] at hc
    simp only [List.mem_cons, List.mem_append] at hc
    rcases hc with rfl | rfl | rfl | rfl | hc
    · rfl
    · rfl
    · rfl
    · rfl
    rcases hc with hc | hc
    · exact (cleanTok_chars h1 c hc).1
    rcases hc with rfl | hc
    · rfl
    rcases hc with hc | hc
    · exact (cleanTok_chars h2 c hc).1
    rcases hc with rfl | hc
    · rfl
    · exact (intToStr_char_facts hc).1
  | deposit ts dst m =>
    obtain ⟨h1, h2⟩ := cleanOp_deposit h
    intro c hc
    rw [data_id_deposit] at hc
    simp only [List.mem_cons, List.mem_append] at hc
    rcases hc with rfl | rfl | rfl | rfl | hc
    · rfl
    · rfl
    · rfl
    · rfl
    rcases hc with hc | hc
    · exact (cleanTok_chars h1 c hc).1
    rcases hc with rfl | hc
    · rfl
    rcases hc with hc | hc
    · exact (cleanTok_chars h2 c hc).1
    rcases hc with rfl | hc
    · rfl
    · exact (intToStr_char_facts hc).1

/-! ## `strip` of the rendered lines -/

theorem stripL_mem {c : Char} {l : List Char} (h : c ∈ stripL l) : c ∈ l := by
  unfold stripL at h
  have h1 := List.mem_reverse.mp h
  have h2 := (List.dropWhile_sublist isPySpace).mem h1
  have h3 := List.mem_reverse.mp h2
  exact (List.dropWhile_sublist isPySpace).mem h3

theorem pyStrip_compute {l : String} (c0 : Char) (t : List Char)
    (hd : l.data = (c0 :: t) ++ ['\n']) (hc0 : isPySpace c0 = false)
    (lc : Char) (hlast : (c0 :: t).getLast? = some lc) (hlc : isPySpace lc = false) :
    pyStrip l = String.mk (c0 :: t) := by
  unfold pyStrip
  rw [hd, stripL_line c0 t hc0 lc hlast hlc]

theorem errMsg_data_split (b m : Int) :
    ∃ pre, (errMsg b m).data = pre ++ (intToStr m).data := by
  refine ⟨"ERROR: insufficient funds: ".data ++ ((intToStr b).data ++ " < ".data), ?_⟩
  simp [errMsg, String.data_append]

theorem errMsg_no_underscore (b m : Int) : '_' ∉ (errMsg b m).data := by
  intro h
  simp only [errMsg, String.data_append, List.mem_append] at h
  rcases h with ((h | h) | h) | h
  · exact absurd h (by decide)
  · exact absurd ((intToStr_char_facts h).2.1) (by simp)
  · exact absurd h (by decide)
  · exact absurd ((intToStr_char_facts h).2.1) (by simp)

theorem errMsg_no_nl (b m : Int) : '\n' ∉ (errMsg b m).data := by
  intro h
  simp only [errMsg, String.data_append, List.mem_append] at h
  rcases h with ((h | h) | h) | h
  · exact absurd h (by decide)
  · exact absurd ((intToStr_char_facts h).2.2) (by simp)
  · exact absurd h (by decide)
  · exact absurd ((intToStr_char_facts h).2.2) (by simp)

theorem strip_Begin_id (op : Op) (hcl : CleanOp op = true) :
    pyStrip (BeginLogLine (Op.id op)) = String.mk (('B':: 'E':: 'G':: 'I':: 'N':: ' '::[]) ++ (Op.id op).data) := by
  obtain ⟨lc, hlast, hdig⟩ := id_getLast op
  refine pyStrip_compute 'B' ('E':: 'G':: 'I':: 'N':: ' '::(Op.id op).data) ?_ (by decide) lc ?_
    ((isDig_facts hdig).1)
  · rw [data_BeginLogLine]
    simp
  · show (('B':: 'E':: 'G':: 'I':: 'N':: ' '::[]) ++ (Op.id op).data).getLast? = some lc
    rw [gl_app (id_ne_nil op), hlast]

theorem strip_ReadLogLine (a : String) (v : Int) :
    pyStrip (ReadLogLine a v)
      = String.mk ('R':: 'E':: 'A':: 'D':: ' ':: (a.data ++ ' ' :: (intToStr v).data)) := by
  obtain ⟨lc, hlast, hdig⟩ := intToStr_getLast_isDig v
  refine pyStrip_compute 'R' ('E':: 'A':: 'D':: ' ':: (a.data ++ ' ' :: (intToStr v).data)) ?_
    (by decide) lc ?_ ((isDig_facts hdig).1)
  · rw [data_ReadLogLine]
    simp
  · have he : ('R':: 'E':: 'A':: 'D':: ' ':: (a.data ++ ' ' :: (intToStr v).data))
        = ('R':: 'E':: 'A':: 'D':: ' ':: (a.data ++ [' '])) ++ (intToStr v).data := by simp
    rw [he, gl_app (intToStr_ne_nil v), hlast]

theorem strip_WriteLogLine (a : String) (v : Int) :
    pyStrip (WriteLogLine a v)
      = String.mk ('W':: 'R':: 'I':: 'T':: 'E':: ' ':: (a.data ++ ' ' :: (intToStr v).data)) := by
  obtain ⟨lc, hlast, hdig⟩ := intToStr_getLast_isDig v
  refine pyStrip_compute 'W' ('R':: 'I':: 'T':: 'E':: ' ':: (a.data ++ ' ' :: (intToStr v).data)) ?_
    (by decide) lc ?_ ((isDig_facts hdig).1)
  · rw [data_WriteLogLine]
    simp
  · have he : ('W':: 'R':: 'I':: 'T':: 'E':: ' ':: (a.data ++ ' ' :: (intToStr v).data))
        = ('W':: 'R':: 'I':: 'T':: 'E':: ' ':: (a.data ++ [' '])) ++ (intToStr v).data := by simp
    rw [he, gl_app (intToStr_ne_nil v), hlast]

theorem strip_CommitNone : pyStrip (CommitLogLine none) = "COMMIT" := rfl

theorem strip_CommitErr (b m : Int) :
    pyStrip (CommitLogLine (some (errMsg b m)))
      = String.mk ('C':: 'O':: 'M':: 'M':: 'I':: 'T':: ' ':: (errMsg b m).data) := by
  obtain ⟨pre, hpre⟩ := errMsg_data_split b m
  obtain ⟨lc, hlast, hdig⟩ := intToStr_getLast_isDig m
  refine pyStrip_compute 'C' ('O':: 'M':: 'M':: 'I':: 'T':: ' ':: (errMsg b m).data) ?_
    (by decide) lc ?_ ((isDig_facts hdig).1)
  · rw [data_CommitSome]
    simp
  · show (('C':: 'O':: 'M':: 'M':: 'I':: 'T':: ' '::[]) ++ (errMsg b m).data).getLast? = some lc
    rw [gl_app, hpre, gl_app (intToStr_ne_nil m), hlast]
    rw [hpre]
    simp [intToStr_ne_nil m]

theorem strip_Read_ne_COMMIT (a : String) (v : Int) :
    pyStrip (ReadLogLine a v) ≠ "COMMIT" := by
  rw [strip_ReadLogLine]
  intro h
  have := congrArg String.data h
  simp at this

theorem strip_Write_ne_COMMIT (a : String) (v : Int) :
    pyStrip (WriteLogLine a v) ≠ "COMMIT" := by
  rw [strip_WriteLogLine]
  intro h
  have := congrArg String.data h
  simp at this

theorem strip_CommitErr_ne_COMMIT (b m : Int) :
    pyStrip (CommitLogLine (some (errMsg b m))) ≠ "COMMIT" := by
  rw [strip_CommitErr]
  intro h
  have := congrArg String.data h
  simp at this

theorem strip_Begin_ne_COMMIT (op : Op) (hcl : CleanOp op = true) :
    pyStrip (BeginLogLine (Op.id op)) ≠ "COMMIT" := by
  rw [strip_Begin_id op hcl]
  intro h
  have := congrArg String.data h
  simp at this

theorem strip_blank : pyStrip "\n" = "" := rfl

/-! ## Substring facts about stripped lines -/

theorem pyIn_empty (n : String) (hn : n.data ≠ []) : pyIn n "" = false := by
  unfold pyIn subL
  cases hx : n.data with
  | nil => exact absurd hx hn
  | cons c t => simp [List.isEmpty_iff, hx]

theorem pyIn_false_of_no_underscore {n l : String}
    (hn : '_' ∈ n.data) (hl : '_' ∉ l.data) : pyIn n (pyStrip l) = false := by
  cases h : pyIn n (pyStrip l) with
  | false => rfl
  | true =>
    have h' : subL n.data (stripL l.data) = true := h
    exact absurd (stripL_mem (subL_mem h' hn)) hl

theorem pyIn_id_strip_begin (op op' : Op) (hcl : CleanOp op = true) :
    pyIn (Op.id op') (pyStrip (BeginLogLine (Op.id op))) = pyIn (Op.id op') (Op.id op) := by
  rw [strip_Begin_id op hcl]
  obtain ⟨k, t, hk, hkk⟩ := id_shape op'
  unfold pyIn
  rw [hk]
  have hnot : k ∉ ('B':: 'E':: 'G':: 'I':: 'N':: ' '::[] : List Char) := by
    rcases hkk with rfl | rfl | rfl <;> decide
  exact subL_skip k t _ hnot (Op.id op).data

theorem pyIn_id_strip_begin_self (op : Op) (hcl : CleanOp op = true) :
    pyIn (Op.id op) (pyStrip (BeginLogLine (Op.id op))) = true := by
  rw [pyIn_id_strip_begin op op hcl]
  unfold pyIn
  have := subL_here (Op.id op).data [] []
  simpa using this

/-! ## `readLoop`, `acLoop`, `lastBeginIdx` -/

theorem readLoop_cons_skip {l : String} (h : pyStartsWith l "WRITE" = false)
    (a : String) (rest : List String) :
    DataStore.readLoop a (l :: rest) = DataStore.readLoop a rest := by
  simp [DataStore.readLoop, h]

theorem readLoop_cons_write (a b : String) (v : Int) (rest : List String)
    (hb : CleanTok b = true) :
    DataStore.readLoop a (WriteLogLine b v :: rest)
      = if b = a then some v else DataStore.readLoop a rest := by
  have hsplit : pySplit (WriteLogLine b v) = ["WRITE", b, intToStr v] :=
    pySplit_three "WRITE" b (intToStr v) (by decide) (by decide)
      (cleanTok_ne_nil hb) (fun c hc => (cleanTok_chars hb c hc).1)
      (intToStr_ne_nil v) (fun c hc => (intToStr_char_facts hc).1)
  simp only [DataStore.readLoop, sw_write_WRITE, if_pos, hsplit]
  rw [pyInt_intToStr]

theorem readLoop_append_skip (a : String) : ∀ (xs ys : List String),
    (∀ l ∈ xs, SkipFor a l) →
    DataStore.readLoop a (xs ++ ys) = DataStore.readLoop a ys := by
  intro xs
  induction xs with
  | nil => intro ys _; rfl
  | cons l xs ih =>
    intro ys h
    rcases h l (by simp) with hno | ⟨b, v, hb, hba, rfl⟩
    · rw [List.cons_append, readLoop_cons_skip hno, ih ys (fun x hx => h x (by simp [hx]))]
    · rw [List.cons_append, readLoop_cons_write a b v _ hb, if_neg hba,
        ih ys (fun x hx => h x (by simp [hx]))]

theorem acLoop_append (oid : String) : ∀ (xs ys : List String) (f : Bool),
    DataStore.acLoop oid f (xs ++ ys)
      = (DataStore.acLoop oid f xs
          || DataStore.acLoop oid (f || xs.any (fun l => pyIn oid (pyStrip l))) ys) := by
  intro xs
  induction xs with
  | nil => intro ys f; simp [DataStore.acLoop]
  | cons l xs ih =>
    intro ys f
    rw [List.cons_append]
    by_cases hcond : ((f || pyIn oid (pyStrip l)) && pyStrip l = "COMMIT") = true
    · simp only [DataStore.acLoop, hcond, if_pos]
      simp
    · simp only [DataStore.acLoop, hcond, if_neg, Bool.false_eq_true, not_false_eq_true]
      rw [ih ys (f || pyIn oid (pyStrip l))]
      congr 2
      simp [Bool.or_assoc]

theorem acLoop_flag_false (oid : String) : ∀ (xs : List String),
    (∀ l ∈ xs, pyIn oid (pyStrip l) = false) →
    DataStore.acLoop oid false xs = false := by
  intro xs
  induction xs with
  | nil => intro _; rfl
  | cons l xs ih =>
    intro h
    have hl := h l (by simp)
    simp only [DataStore.acLoop, hl, Bool.or_false]
    rw [if_neg (by simp)]
    exact ih (fun x hx => h x (by simp [hx]))

theorem acLoop_commit_true (oid : String) : ∀ (ys : List String),
    (∃ l ∈ ys, pyStrip l = "COMMIT") →
    DataStore.acLoop oid true ys = true := by
  intro ys
  induction ys with
  | nil => rintro ⟨l, hl, _⟩; simp at hl
  | cons l ys ih =>
    rintro ⟨x, hx, hxc⟩
    rcases List.mem_cons.mp hx with rfl | hx
    · simp [DataStore.acLoop, hxc]
    · by_cases hcond : ((true || pyIn oid (pyStrip l)) && pyStrip l = "COMMIT") = true
      · simp only [DataStore.acLoop]
        rw [if_pos hcond]
      · simp only [DataStore.acLoop, hcond, if_neg, Bool.false_eq_true, not_false_eq_true]
        simpa using ih ⟨x, hx, hxc⟩

theorem acLoop_no_commit (oid : String) : ∀ (ys : List String) (f : Bool),
    (∀ l ∈ ys, pyStrip l ≠ "COMMIT") →
    DataStore.acLoop oid f ys = false := by
  intro ys
  induction ys with
  | nil => intro f _; rfl
  | cons l ys ih =>
    intro f h
    have hl : (pyStrip l = "COMMIT") = False := by
      simp [h l (by simp)]
    simp only [DataStore.acLoop, hl]
    rw [if_neg (by simp)]
    exact ih _ (fun x hx => h x (by simp [hx]))

theorem lbi_none : ∀ (xs : List String),
    (∀ l ∈ xs, pyStartsWith l "BEGIN" = false) →
    DataStore.lastBeginIdx xs = none := by
  intro xs
  induction xs with
  | nil => intro _; rfl
  | cons l xs ih =>
    intro h
    simp only [DataStore.lastBeginIdx, ih (fun x hx => h x (by simp [hx])), h l (by simp)]
    simp

theorem lbi_append_none (xs ys : List String) (h : DataStore.lastBeginIdx ys = none) :
    DataStore.lastBeginIdx (xs ++ ys) = DataStore.lastBeginIdx xs := by
  induction xs with
  | nil => simpa using h
  | cons l xs ih =>
    rw [List.cons_append]
    simp only [DataStore.lastBeginIdx, ih]

theorem lbi_append_some (xs ys : List String) (i : Nat)
    (h : DataStore.lastBeginIdx ys = some i) :
    DataStore.lastBeginIdx (xs ++ ys) = some (xs.length + i) := by
  induction xs with
  | nil => simpa using h
  | cons l xs ih =>
    rw [List.cons_append]
    simp only [DataStore.lastBeginIdx, ih]
    congr 1
    simp
    omega

/-! ## `NlTerm` helpers -/

theorem nlTerm_empty : NlTerm "" := Or.inl rfl

theorem nlTerm_append_right {c d : String} (h : NlTerm d) (hne : d.data ≠ []) :
    NlTerm (c ++ d) := by
  rcases h with h | h
  · exact absurd (congrArg String.data h) (by simpa using hne)
  · right
    rw [String.data_append, gl_app hne, h]

theorem lineShape_data_ne_nil {l : String} (h : LineShape l = true) : l.data ≠ [] := by
  obtain ⟨body, hd, _⟩ := lineShape_iff.mp h
  simp [hd]

theorem nlTerm_of_lineShape {l : String} (h : LineShape l = true) : NlTerm l := by
  obtain ⟨body, hd, _⟩ := lineShape_iff.mp h
  right
  rw [hd]
  simp

theorem nlTerm_append_line {c l : String} (h : LineShape l = true) : NlTerm (c ++ l) :=
  nlTerm_append_right (nlTerm_of_lineShape h) (lineShape_data_ne_nil h)

theorem sjoin_lines_ne_nil {l : String} {L : List String} (h : LineShape l = true) :
    (sjoin (l :: L)).data ≠ [] := by
  rw [sjoin_cons, String.data_append]
  have := lineShape_data_ne_nil h
  intro hx
  rcases List.append_eq_nil.mp hx with ⟨h1, _⟩
  exact this h1

theorem nlTerm_sjoin (L : List String) (h : ∀ l ∈ L, LineShape l = true) :
    NlTerm (sjoin L) := by
  induction L with
  | nil => exact nlTerm_empty
  | cons l L ih =>
    cases L with
    | nil =>
      rw [sjoin_cons, sjoin_nil]
      right
      have h2 : l.data.getLast? = some '\n' := by
        obtain ⟨body, hd, _⟩ := lineShape_iff.mp (h l (by simp))
        rw [hd]; simp
      rw [String.data_append]
      simpa using h2
    | cons l2 L2 =>
      rw [sjoin_cons]
      exact nlTerm_append_right (ih (fun x hx => h x (by simp [hx])))
        (sjoin_lines_ne_nil (h l2 (by simp)))

/-! ## Shape facts for full record lines -/

theorem noWs_ne_nl {c : Char} (h : isPySpace c = false) : c ≠ '\n' := by
  rintro rfl
  exact absurd h (by decide)

theorem append_empty (s : String) : s ++ "" = s := strExt (by simp [String.data_append])

theorem lineShape_Begin_id (op : Op) (hcl : CleanOp op = true) :
    LineShape (BeginLogLine (Op.id op)) = true := by
  refine lineShape_iff.mpr ⟨'B':: 'E':: 'G':: 'I':: 'N':: ' '::(Op.id op).data, ?_, ?_⟩
  · rw [data_BeginLogLine]; simp
  · intro hm
    simp only [List.mem_cons] at hm
    rcases hm with h1 | h1 | h1 | h1 | h1 | h1 | h1
    · exact absurd h1 (by decide)
    · exact absurd h1 (by decide)
    · exact absurd h1 (by decide)
    · exact absurd h1 (by decide)
    · exact absurd h1 (by decide)
    · exact absurd h1 (by decide)
    · exact absurd (id_noWs hcl _ h1) (by decide)

theorem lineShape_Write (a : String) (v : Int) (ha : CleanTok a = true) :
    LineShape (WriteLogLine a v) = true := by
  refine lineShape_iff.mpr
    ⟨'W':: 'R':: 'I':: 'T':: 'E':: ' ':: (a.data ++ ' ' :: (intToStr v).data), ?_, ?_⟩
  · rw [data_WriteLogLine]; simp
  · intro hm
    simp only [List.mem_cons, List.mem_append] at hm
    rcases hm with h1 | h1 | h1 | h1 | h1 | h1 | h1 | h1 | h1
    · exact absurd h1 (by decide)
    · exact absurd h1 (by decide)
    · exact absurd h1 (by decide)
    · exact absurd h1 (by decide)
    · exact absurd h1 (by decide)
    · exact absurd h1 (by decide)
    · exact (noWs_ne_nl (cleanTok_chars ha _ h1).1).symm rfl
    · exact absurd h1 (by decide)
    · exact (noWs_ne_nl (intToStr_char_facts h1).1).symm rfl

theorem lineShape_Read (a : String) (v : Int) (ha : CleanTok a = true) :
    LineShape (ReadLogLine a v) = true := by
  refine lineShape_iff.mpr
    ⟨'R':: 'E':: 'A':: 'D':: ' ':: (a.data ++ ' ' :: (intToStr v).data), ?_, ?_⟩
  · rw [data_ReadLogLine]; simp
  · intro hm
    simp only [List.mem_cons, List.mem_append] at hm
    rcases hm with h1 | h1 | h1 | h1 | h1 | h1 | h1 | h1
    · exact absurd h1 (by decide)
    · exact absurd h1 (by decide)
    · exact absurd h1 (by decide)
    · exact absurd h1 (by decide)
    · exact absurd h1 (by decide)
    · exact (noWs_ne_nl (cleanTok_chars ha _ h1).1).symm rfl
    · exact absurd h1 (by decide)
    · exact (noWs_ne_nl (intToStr_char_facts h1).1).symm rfl

theorem lineShape_CommitNone : LineShape (CommitLogLine none) = true := rfl

theorem lineShape_CommitErr (b m : Int) :
    LineShape (CommitLogLine (some (errMsg b m))) = true := by
  refine lineShape_iff.mpr ⟨'C':: 'O':: 'M':: 'M':: 'I':: 'T':: ' ':: (errMsg b m).data, ?_, ?_⟩
  · rw [data_CommitSome]; simp
  · intro hm
    simp only [List.mem_cons] at hm
    rcases hm with h1 | h1 | h1 | h1 | h1 | h1 | h1 | h1
    · exact absurd h1 (by decide)
    · exact absurd h1 (by decide)
    · exact absurd h1 (by decide)
    · exact absurd h1 (by decide)
    · exact absurd h1 (by decide)
    · exact absurd h1 (by decide)
    · exact absurd h1 (by decide)
    · exact absurd h1 (errMsg_no_nl b m)

theorem lineShape_blank : LineShape "\n" = true := rfl

theorem underscore_Write (a : String) (v : Int) (ha : CleanTok a = true) :
    '_' ∉ (WriteLogLine a v).data := by
  rw [data_WriteLogLine]
  intro hm
  simp only [List.mem_cons, List.mem_append] at hm
  rcases hm with h1 | h1 | h1 | h1 | h1 | h1 | h1 | h1 | h1
  · exact absurd h1 (by decide)
  · exact absurd h1 (by decide)
  · exact absurd h1 (by decide)
  · exact absurd h1 (by decide)
  · exact absurd h1 (by decide)
  · exact absurd h1 (by decide)
  · exact (cleanTok_chars ha _ h1).2 rfl
  · exact absurd h1 (by decide)
  · rcases h1 with h1 | h1 | h1
    · exact (intToStr_char_facts h1).2.1 rfl
    · exact absurd h1 (by decide)
    · simp at h1

theorem underscore_Read (a : String) (v : Int) (ha : CleanTok a = true) :
    '_' ∉ (ReadLogLine a v).data := by
  rw [data_ReadLogLine]
  intro hm
  simp only [List.mem_cons, List.mem_append] at hm
  rcases hm with h1 | h1 | h1 | h1 | h1 | h1 | h1 | h1
  · exact absurd h1 (by decide)
  · exact absurd h1 (by decide)
  · exact absurd h1 (by decide)
  · exact absurd h1 (by decide)
  · exact absurd h1 (by decide)
  · exact (cleanTok_chars ha _ h1).2 rfl
  · exact absurd h1 (by decide)
  · rcases h1 with h1 | h1 | h1
    · exact (intToStr_char_facts h1).2.1 rfl
    · exact absurd h1 (by decide)
    · simp at h1

theorem underscore_CommitNone : '_' ∉ (CommitLogLine none).data := by decide

theorem underscore_CommitErr (b m : Int) :
    '_' ∉ (CommitLogLine (some (errMsg b m))).data := by
  rw [data_CommitSome]
  intro hm
  simp only [List.mem_cons] at hm
  rcases hm with h1 | h1 | h1 | h1 | h1 | h1 | h1 | h1
  · exact absurd h1 (by decide)
  · exact absurd h1 (by decide)
  · exact absurd h1 (by decide)
  · exact absurd h1 (by decide)
  · exact absurd h1 (by decide)
  · exact absurd h1 (by decide)
  · exact absurd h1 (by decide)
  · rcases List.mem_append.mp h1 with h1 | h1
    · exact absurd h1 (errMsg_no_underscore b m)
    · simp at h1

theorem underscore_Blank : '_' ∉ ("\n" : String).data := by decide

theorem split_Begin_id (op : Op) (hcl : CleanOp op = true) :
    pySplit (BeginLogLine (Op.id op)) = ["BEGIN", Op.id op] :=
  pySplit_two "BEGIN" (Op.id op) (by decide) (by decide) (id_ne_nil op) (id_noWs hcl)

/-! ## `DataStore.read` and `already_committed` over appended content -/

theorem readlines_single {l : String} (h : LineShape l = true) : pyReadlines l = [l] := by
  have h2 := readlines_cons_line h ""
  rw [append_empty] at h2
  simpa using h2

theorem read_append_line_skip {c : String} (hnl : NlTerm c) {l : String}
    (hl : LineShape l = true) (hsk : pyStartsWith l "WRITE" = false) (x : String) :
    DataStore.read (c ++ l) x = DataStore.read c x := by
  unfold DataStore.read
  rw [readlines_append hnl, readlines_single hl, List.reverse_append]
  exact readLoop_cons_skip hsk x _

theorem read_append_write {c : String} (hnl : NlTerm c) (b : String) (v : Int)
    (hb : CleanTok b = true) (x : String) :
    DataStore.read (c ++ WriteLogLine b v) x
      = if b = x then some v else DataStore.read c x := by
  unfold DataStore.read
  rw [readlines_append hnl, readlines_single (lineShape_Write b v hb), List.reverse_append]
  exact readLoop_cons_write x b v _ hb

theorem readlines_empty : pyReadlines "" = [] := rfl

theorem readlines_of_lines (R : List String) (hR : ∀ l ∈ R, LineShape l = true) :
    pyReadlines (sjoin R) = R := by
  have h2 := readlines_sjoin R hR ""
  rw [append_empty, readlines_empty, List.append_nil] at h2
  exact h2

/-! ## Symbolic execution of `handle` -/

theorem handle_c1 (op : Op) (hcl : CleanOp op = true) (wb : Bool) (c : String) (hnl : NlTerm c) :
    ((if wb then DataStore.log c (BeginLogLine (Op.id op)) else c)
        = c ++ (if wb then BeginLogLine (Op.id op) else ""))
    ∧ NlTerm (c ++ (if wb then BeginLogLine (Op.id op) else ""))
    ∧ (∀ x, DataStore.read (c ++ (if wb then BeginLogLine (Op.id op) else "")) x
          = DataStore.read c x) := by
  cases wb
  · simp only [Bool.false_eq_true, if_false]
    exact ⟨(append_empty c).symm, by rw [append_empty]; exact hnl,
      fun x => by rw [append_empty]⟩
  · simp only [if_true]
    exact ⟨rfl, nlTerm_append_line (lineShape_Begin_id op hcl),
      fun x => read_append_line_skip hnl (lineShape_Begin_id op hcl) (sw_begin_WRITE _) x⟩

theorem handle_spec (op : Op) (wb : Bool) (c : String) (bs bd : Int)
    (hcl : CleanOp op = true) (hnl : NlTerm c)
    (hac : DataStore.already_committed c (Op.id op) = false)
    (hs : DataStore.read c op.srcAcct = some bs)
    (hd : DataStore.read c op.dstAcct = some bd) :
    Op.handle op wb c
      = some (c ++ (if wb then BeginLogLine (Op.id op) else "") ++ sjoin (txRecords op bs bd)) := by
  obtain ⟨he1, hnl1, hr1⟩ := handle_c1 op hcl wb c hnl
  cases op with
  | withdraw ts a m =>
    obtain ⟨hts, ha⟩ := cleanOp_withdraw hcl
    have hs' : DataStore.read c a = some bs := hs
    simp only [Op.handle, hac, Bool.false_eq_true, if_false, he1, hr1 a, hs']
    by_cases hlt : bs < m
    · rw [if_pos hlt]
      simp only [txRecords, if_pos hlt]
      refine congrArg some (strExt ?_)
      simp [DataStore.log, String.data_append]
    · rw [if_neg hlt]
      simp only [txRecords, if_neg hlt]
      refine congrArg some (strExt ?_)
      simp [DataStore.log, String.data_append]
  | deposit ts a m =>
    obtain ⟨hts, ha⟩ := cleanOp_deposit hcl
    have hs' : DataStore.read c a = some bs := hs
    simp only [Op.handle, hac, Bool.false_eq_true, if_false, he1, hr1 a, hs']
    simp only [txRecords]
    refine congrArg some (strExt ?_)
    simp [DataStore.log, String.data_append]
  | move ts src dst m =>
    obtain ⟨hts, hsrc, hdst⟩ := cleanOp_move hcl
    have hs' : DataStore.read c src = some bs := hs
    have hd' : DataStore.read c dst = some bd := hd
    simp only [Op.handle, hac, Bool.false_eq_true, if_false, he1, hr1 src, hs']
    by_cases hlt : bs < m
    · rw [if_pos hlt]
      simp only [txRecords, if_pos hlt]
      refine congrArg some (strExt ?_)
      simp [DataStore.log, String.data_append]
    · rw [if_neg hlt]
      simp only [txRecords, if_neg hlt]
      have hnl2 : NlTerm ((c ++ (if wb then BeginLogLine (Op.id (Op.move ts src dst m)) else ""))
          ++ ReadLogLine src bs) :=
        nlTerm_append_line (lineShape_Read src bs hsrc)
      have hread3 : DataStore.read (((c ++ (if wb then BeginLogLine (Op.id (Op.move ts src dst m)) else ""))
            ++ ReadLogLine src bs) ++ WriteLogLine src (bs - m)) dst
          = some (if src = dst then bs - m else bd) := by
        rw [read_append_write hnl2 src (bs - m) hsrc dst]
        by_cases hsd : src = dst
        · rw [if_pos hsd, if_pos hsd]
        · rw [if_neg hsd, if_neg hsd,
            read_append_line_skip hnl1 (lineShape_Read src bs hsrc) (sw_read_WRITE _ _) dst,
            hr1 dst, hd']
      simp only [DataStore.log, hread3]
      refine congrArg some (strExt ?_)
      simp [DataStore.log, String.data_append]

theorem txRecords_lineShape (op : Op) (hcl : CleanOp op = true) (bs bd : Int) :
    ∀ l ∈ txRecords op bs bd, LineShape l = true := by
  cases op with
  | move ts src dst m =>
    obtain ⟨hts, hsrc, hdst⟩ := cleanOp_move hcl
    intro l hl
    simp only [txRecords] at hl
    by_cases hlt : bs < m
    · rw [if_pos hlt] at hl
      simp only [List.mem_cons] at hl
      rcases hl with rfl | rfl | h
      · exact lineShape_Read src bs hsrc
      · exact lineShape_CommitErr bs m
      · simp at h
    · rw [if_neg hlt] at hl
      simp only [List.mem_cons] at hl
      rcases hl with rfl | rfl | rfl | rfl | rfl | h
      · exact lineShape_Read src bs hsrc
      · exact lineShape_Write src (bs - m) hsrc
      · exact lineShape_Read dst _ hdst
      · exact lineShape_Write dst _ hdst
      · exact lineShape_CommitNone
      · simp at h
  | withdraw ts a m =>
    obtain ⟨hts, ha⟩ := cleanOp_withdraw hcl
    intro l hl
    simp only [txRecords] at hl
    by_cases hlt : bs < m
    · rw [if_pos hlt] at hl
      simp only [List.mem_cons] at hl
      rcases hl with rfl | rfl | h
      · exact lineShape_Read a bs ha
      · exact lineShape_CommitErr bs m
      · simp at h
    · rw [if_neg hlt] at hl
      simp only [List.mem_cons] at hl
      rcases hl with rfl | rfl | rfl | h
      · exact lineShape_Read a bs ha
      · exact lineShape_Write a (bs - m) ha
      · exact lineShape_CommitNone
      · simp at h
  | deposit ts a m =>
    obtain ⟨hts, ha⟩ := cleanOp_deposit hcl
    intro l hl
    simp only [txRecords, List.mem_cons] at hl
    rcases hl with rfl | rfl | rfl | h
    · exact lineShape_Read a bs ha
    · exact lineShape_Write a (bs + m) ha
    · exact lineShape_CommitNone
    · simp at h

theorem read_after_handle (op : Op) (wb : Bool) (c : String) (bal : String → Int)
    (hcl : CleanOp op = true) (hnl : NlTerm c)
    (hbal : ∀ x, CleanTok x = true → DataStore.read c x = some (bal x)) :
    ∀ x, CleanTok x = true →
      DataStore.read (c ++ (if wb then BeginLogLine (Op.id op) else "")
          ++ sjoin (txRecords op (bal op.srcAcct) (bal op.dstAcct))) x
        = some (applyOp bal op x) := by
  obtain ⟨he1, hnl1, hr1⟩ := handle_c1 op hcl wb c hnl
  cases op with
  | withdraw ts a m =>
    obtain ⟨hts, ha⟩ := cleanOp_withdraw hcl
    intro x hx
    set c1 := c ++ (if wb then BeginLogLine (Op.id (Op.withdraw ts a m)) else "") with hc1
    by_cases hlt : bal a < m
    · have hR : c1 ++ sjoin (txRecords (Op.withdraw ts a m) (bal a) (bal a))
          = (c1 ++ ReadLogLine a (bal a)) ++ CommitLogLine (some (errMsg (bal a) m)) := by
        apply strExt
        simp [txRecords, hlt, String.data_append]
      show DataStore.read (c1 ++ sjoin (txRecords (Op.withdraw ts a m) (bal a) (bal a))) x = _
      rw [hR,
        read_append_line_skip (nlTerm_append_line (lineShape_Read a (bal a) ha))
          (lineShape_CommitErr (bal a) m) (sw_commit_WRITE _) x,
        read_append_line_skip hnl1 (lineShape_Read a (bal a) ha) (sw_read_WRITE _ _) x,
        hr1 x, hbal x hx]
      simp [applyOp, hlt]
    · have hR : c1 ++ sjoin (txRecords (Op.withdraw ts a m) (bal a) (bal a))
          = (((c1 ++ ReadLogLine a (bal a)) ++ WriteLogLine a (bal a - m)) ++ CommitLogLine none) := by
        apply strExt
        simp [txRecords, hlt, String.data_append]
      show DataStore.read (c1 ++ sjoin (txRecords (Op.withdraw ts a m) (bal a) (bal a))) x = _
      rw [hR,
        read_append_line_skip
          (nlTerm_append_line (lineShape_Write a (bal a - m) ha))
          lineShape_CommitNone (sw_commit_WRITE _) x,
        read_append_write (nlTerm_append_line (lineShape_Read a (bal a) ha)) a (bal a - m) ha x]
      by_cases hax : a = x
      · subst hax
        simp [applyOp, hlt, upd]
      · rw [if_neg hax,
          read_append_line_skip hnl1 (lineShape_Read a (bal a) ha) (sw_read_WRITE _ _) x,
          hr1 x, hbal x hx]
        have hxa : ¬ x = a := fun h => hax h.symm
        simp [applyOp, hlt, upd, hxa]
  | deposit ts a m =>
    obtain ⟨hts, ha⟩ := cleanOp_deposit hcl
    intro x hx
    set c1 := c ++ (if wb then BeginLogLine (Op.id (Op.deposit ts a m)) else "") with hc1
    have hR : c1 ++ sjoin (txRecords (Op.deposit ts a m) (bal a) (bal a))
        = (((c1 ++ ReadLogLine a (bal a)) ++ WriteLogLine a (bal a + m)) ++ CommitLogLine none) := by
      apply strExt
      simp [txRecords, String.data_append]
    show DataStore.read (c1 ++ sjoin (txRecords (Op.deposit ts a m) (bal a) (bal a))) x = _
    rw [hR,
      read_append_line_skip
        (nlTerm_append_line (lineShape_Write a (bal a + m) ha))
        lineShape_CommitNone (sw_commit_WRITE _) x,
      read_append_write (nlTerm_append_line (lineShape_Read a (bal a) ha)) a (bal a + m) ha x]
    by_cases hax : a = x
    · subst hax
      simp [applyOp, upd]
    · rw [if_neg hax,
        read_append_line_skip hnl1 (lineShape_Read a (bal a) ha) (sw_read_WRITE _ _) x,
        hr1 x, hbal x hx]
      have hxa : ¬ x = a := fun h => hax h.symm
      simp [applyOp, upd, hxa]
  | move ts src dst m =>
    obtain ⟨hts, hsrc, hdst⟩ := cleanOp_move hcl
    intro x hx
    set c1 := c ++ (if wb then BeginLogLine (Op.id (Op.move ts src dst m)) else "") with hc1
    by_cases hlt : bal src < m
    · have hR : c1 ++ sjoin (txRecords (Op.move ts src dst m) (bal src) (bal dst))
          = (c1 ++ ReadLogLine src (bal src)) ++ CommitLogLine (some (errMsg (bal src) m)) := by
        apply strExt
        simp [txRecords, hlt, String.data_append]
      show DataStore.read (c1 ++ sjoin (txRecords (Op.move ts src dst m) (bal src) (bal dst))) x = _
      rw [hR,
        read_append_line_skip (nlTerm_append_line (lineShape_Read src (bal src) hsrc))
          (lineShape_CommitErr (bal src) m) (sw_commit_WRITE _) x,
        read_append_line_skip hnl1 (lineShape_Read src (bal src) hsrc) (sw_read_WRITE _ _) x,
        hr1 x, hbal x hx]
      simp [applyOp, hlt]
    · have hbd : (if src = dst then bal src - m else bal dst)
          = upd bal src (bal src - m) dst := by
        unfold upd
        by_cases hsd : src = dst
        · rw [if_pos hsd, if_pos hsd.symm]
        · rw [if_neg hsd, if_neg (fun h => hsd h.symm)]
      have hR : c1 ++ sjoin (txRecords (Op.move ts src dst m) (bal src) (bal dst))
          = (((((c1 ++ ReadLogLine src (bal src)) ++ WriteLogLine src (bal src - m))
              ++ ReadLogLine dst (if src = dst then bal src - m else bal dst))
              ++ WriteLogLine dst ((if src = dst then bal src - m else bal dst) + m))
              ++ CommitLogLine none) := by
        apply strExt
        simp [txRecords, hlt, String.data_append]
      show DataStore.read (c1 ++ sjoin (txRecords (Op.move ts src dst m) (bal src) (bal dst))) x = _
      have hnl2 : NlTerm (c1 ++ ReadLogLine src (bal src)) :=
        nlTerm_append_line (lineShape_Read src (bal src) hsrc)
      have hnl3 : NlTerm ((c1 ++ ReadLogLine src (bal src)) ++ WriteLogLine src (bal src - m)) :=
        nlTerm_append_line (lineShape_Write src (bal src - m) hsrc)
      have hnl4 : NlTerm (((c1 ++ ReadLogLine src (bal src)) ++ WriteLogLine src (bal src - m))
          ++ ReadLogLine dst (if src = dst then bal src - m else bal dst)) :=
        nlTerm_append_line (lineShape_Read dst _ hdst)
      rw [hR,
        read_append_line_skip (nlTerm_append_line (lineShape_Write dst _ hdst))
          lineShape_CommitNone (sw_commit_WRITE _) x,
        read_append_write hnl4 dst _ hdst x]
      by_cases hdx : dst = x
      · subst hdx
        rw [if_pos rfl, hbd]
        simp only [applyOp]
        rw [if_neg hlt]
        simp [upd]
      · rw [if_neg hdx,
          read_append_line_skip hnl3 (lineShape_Read dst _ hdst) (sw_read_WRITE _ _) x,
          read_append_write hnl2 src (bal src - m) hsrc x]
        by_cases hsx : src = x
        · subst hsx
          have h1 : ¬ src = dst := fun h => hdx h.symm
          simp only [applyOp]
          rw [if_neg hlt]
          simp [upd, h1]
        · rw [if_neg hsx,
            read_append_line_skip hnl1 (lineShape_Read src (bal src) hsrc) (sw_read_WRITE _ _) x,
            hr1 x, hbal x hx]
          have hxd : ¬ x = dst := fun h => hdx h.symm
          have hxs : ¬ x = src := fun h => hsx h.symm
          simp only [applyOp]
          rw [if_neg hlt]
          simp [upd, hxd, hxs]

/-! ## Parsing an operation id back (round trip) -/

theorem intToStr_no_underscore (i : Int) : '_' ∉ (intToStr i).data :=
  fun h => (intToStr_char_facts h).2.1 rfl

theorem sw_id_move_mov (ts src dst : String) (m : Int) :
    pyStartsWith (Op.id (Op.move ts src dst m)) "mov" = true := by
  unfold pyStartsWith
  rw [data_id_move]
  rfl

theorem sw_id_withdraw_mov (ts dst : String) (m : Int) :
    pyStartsWith (Op.id (Op.withdraw ts dst m)) "mov" = false := by
  unfold pyStartsWith
  rw [data_id_withdraw]
  rfl

theorem sw_id_withdraw_wit (ts dst : String) (m : Int) :
    pyStartsWith (Op.id (Op.withdraw ts dst m)) "wit" = true := by
  unfold pyStartsWith
  rw [data_id_withdraw]
  rfl

theorem sw_id_deposit_mov (ts dst : String) (m : Int) :
    pyStartsWith (Op.id (Op.deposit ts dst m)) "mov" = false := by
  unfold pyStartsWith
  rw [data_id_deposit]
  rfl

theorem sw_id_deposit_wit (ts dst : String) (m : Int) :
    pyStartsWith (Op.id (Op.deposit ts dst m)) "wit" = false := by
  unfold pyStartsWith
  rw [data_id_deposit]
  rfl

theorem sw_id_deposit_dep (ts dst : String) (m : Int) :
    pyStartsWith (Op.id (Op.deposit ts dst m)) "dep" = true := by
  unfold pyStartsWith
  rw [data_id_deposit]
  rfl

theorem parse_id_move (ts src dst : String) (m : Int)
    (h1 : '_' ∉ ts.data) (h2 : '_' ∉ src.data) (h3 : '_' ∉ dst.data) :
    DataStore.parse_op_from_id (Op.id (Op.move ts src dst m)) = some (Op.move ts src dst m) := by
  have hsplit : pySplitOn '_' (Op.id (Op.move ts src dst m))
      = ["mov", ts, src, dst, intToStr m] := by
    show pySplitOn '_' (idJoin ["mov", ts, src, dst, intToStr m]) = _
    apply pySplitOn_idJoin
    · simp
    · intro p hp
      simp only [List.mem_cons] at hp
      rcases hp with rfl | rfl | rfl | rfl | rfl | hp
      · decide
      · exact h1
      · exact h2
      · exact h3
      · exact intToStr_no_underscore m
      · simp at hp
  unfold DataStore.parse_op_from_id
  simp only [sw_id_move_mov, if_true, hsplit]
  simp [pyInt_intToStr]

theorem parse_id_withdraw (ts dst : String) (m : Int)
    (h1 : '_' ∉ ts.data) (h2 : '_' ∉ dst.data) :
    DataStore.parse_op_from_id (Op.id (Op.withdraw ts dst m)) = some (Op.withdraw ts dst m) := by
  have hsplit : pySplitOn '_' (Op.id (Op.withdraw ts dst m))
      = ["wit", ts, dst, intToStr m] := by
    show pySplitOn '_' (idJoin ["wit", ts, dst, intToStr m]) = _
    apply pySplitOn_idJoin
    · simp
    · intro p hp
      simp only [List.mem_cons] at hp
      rcases hp with rfl | rfl | rfl | rfl | hp
      · decide
      · exact h1
      · exact h2
      · exact intToStr_no_underscore m
      · simp at hp
  unfold DataStore.parse_op_from_id
  simp only [sw_id_withdraw_mov, sw_id_withdraw_wit, Bool.false_eq_true, if_false, if_true, hsplit]
  simp [pyInt_intToStr]

theorem parse_id_deposit (ts dst : String) (m : Int)
    (h1 : '_' ∉ ts.data) (h2 : '_' ∉ dst.data) :
    DataStore.parse_op_from_id (Op.id (Op.deposit ts dst m)) = some (Op.deposit ts dst m) := by
  have hsplit : pySplitOn '_' (Op.id (Op.deposit ts dst m))
      = ["dep", ts, dst, intToStr m] := by
    show pySplitOn '_' (idJoin ["dep", ts, dst, intToStr m]) = _
    apply pySplitOn_idJoin
    · simp
    · intro p hp
      simp only [List.mem_cons] at hp
      rcases hp with rfl | rfl | rfl | rfl | hp
      · decide
      · exact h1
      · exact h2
      · exact intToStr_no_underscore m
      · simp at hp
  unfold DataStore.parse_op_from_id
  simp only [sw_id_deposit_mov, sw_id_deposit_wit, sw_id_deposit_dep,
    Bool.false_eq_true, if_false, if_true, hsplit]
  simp [pyInt_intToStr]

theorem parse_id_roundtrip (op : Op) (h : NoUndOp op = true) :
    DataStore.parse_op_from_id (Op.id op) = some op := by
  cases op with
  | move ts src dst m =>
    simp only [NoUndOp, Bool.and_eq_true, decide_eq_true_eq] at h
    exact parse_id_move ts src dst m h.1.1 h.1.2 h.2
  | withdraw ts dst m =>
    simp only [NoUndOp, Bool.and_eq_true, decide_eq_true_eq] at h
    exact parse_id_withdraw ts dst m h.1 h.2
  | deposit ts dst m =>
    simp only [NoUndOp, Bool.and_eq_true, decide_eq_true_eq] at h
    exact parse_id_deposit ts dst m h.1 h.2

/-! ## The journal invariant for sequences of operations -/

theorem cleanOp_srcAcct {op : Op} (h : CleanOp op = true) : CleanTok op.srcAcct = true := by
  cases op with
  | move ts src dst m => exact (cleanOp_move h).2.1
  | withdraw ts dst m => exact (cleanOp_withdraw h).2
  | deposit ts dst m => exact (cleanOp_deposit h).2

theorem cleanOp_dstAcct {op : Op} (h : CleanOp op = true) : CleanTok op.dstAcct = true := by
  cases op with
  | move ts src dst m => exact (cleanOp_move h).2.2
  | withdraw ts dst m => exact (cleanOp_withdraw h).2
  | deposit ts dst m => exact (cleanOp_deposit h).2

theorem txRecords_no_underscore (op : Op) (hcl : CleanOp op = true) (bs bd : Int) :
    ∀ l ∈ txRecords op bs bd, '_' ∉ l.data := by
  cases op with
  | move ts src dst m =>
    obtain ⟨hts, hsrc, hdst⟩ := cleanOp_move hcl
    intro l hl
    simp only [txRecords] at hl
    by_cases hlt : bs < m
    · rw [if_pos hlt] at hl
      simp only [List.mem_cons] at hl
      rcases hl with rfl | rfl | h
      · exact underscore_Read src bs hsrc
      · exact underscore_CommitErr bs m
      · simp at h
    · rw [if_neg hlt] at hl
      simp only [List.mem_cons] at hl
      rcases hl with rfl | rfl | rfl | rfl | rfl | h
      · exact underscore_Read src bs hsrc
      · exact underscore_Write src (bs - m) hsrc
      · exact underscore_Read dst _ hdst
      · exact underscore_Write dst _ hdst
      · exact underscore_CommitNone
      · simp at h
  | withdraw ts a m =>
    obtain ⟨hts, ha⟩ := cleanOp_withdraw hcl
    intro l hl
    simp only [txRecords] at hl
    by_cases hlt : bs < m
    · rw [if_pos hlt] at hl
      simp only [List.mem_cons] at hl
      rcases hl with rfl | rfl | h
      · exact underscore_Read a bs ha
      · exact underscore_CommitErr bs m
      · simp at h
    · rw [if_neg hlt] at hl
      simp only [List.mem_cons] at hl
      rcases hl with rfl | rfl | rfl | h
      · exact underscore_Read a bs ha
      · exact underscore_Write a (bs - m) ha
      · exact underscore_CommitNone
      · simp at h
  | deposit ts a m =>
    obtain ⟨hts, ha⟩ := cleanOp_deposit hcl
    intro l hl
    simp only [txRecords, List.mem_cons] at hl
    rcases hl with rfl | rfl | rfl | h
    · exact underscore_Read a bs ha
    · exact underscore_Write a (bs + m) ha
    · exact underscore_CommitNone
    · simp at h

theorem txRecords_sjoin_ne_nil (op : Op) (hcl : CleanOp op = true) (bs bd : Int) :
    (sjoin (txRecords op bs bd)).data ≠ [] := by
  cases op with
  | move ts src dst m =>
    obtain ⟨hts, hsrc, hdst⟩ := cleanOp_move hcl
    simp only [txRecords]
    by_cases hlt : bs < m
    · rw [if_pos hlt]
      exact sjoin_lines_ne_nil (lineShape_Read src bs hsrc)
    · rw [if_neg hlt]
      exact sjoin_lines_ne_nil (lineShape_Read src bs hsrc)
  | withdraw ts a m =>
    obtain ⟨hts, ha⟩ := cleanOp_withdraw hcl
    simp only [txRecords]
    by_cases hlt : bs < m
    · rw [if_pos hlt]
      exact sjoin_lines_ne_nil (lineShape_Read a bs ha)
    · rw [if_neg hlt]
      exact sjoin_lines_ne_nil (lineShape_Read a bs ha)
  | deposit ts a m =>
    obtain ⟨hts, ha⟩ := cleanOp_deposit hcl
    simp only [txRecords]
    exact sjoin_lines_ne_nil (lineShape_Read a bs ha)

theorem jInv_empty : JInv [] (fun _ => 0) "" := by
  refine ⟨nlTerm_empty, ?_, ?_⟩
  · intro l hl
    rw [readlines_empty] at hl
    simp at hl
  · intro x _
    rfl

theorem jInv_fresh {done : List Op} {bal : String → Int} {c : String}
    (hinv : JInv done bal c) (op : Op)
    (hfresh : ∀ d ∈ done, pyIn (Op.id op) (Op.id d) = false) :
    DataStore.already_committed c (Op.id op) = false := by
  obtain ⟨hnl, hlines, hread⟩ := hinv
  unfold DataStore.already_committed
  apply acLoop_flag_false
  intro l hl
  rcases hlines l hl with ⟨op', hcl', hmem, rfl⟩ | hund
  · rw [pyIn_id_strip_begin op' op hcl']
    exact hfresh op' hmem
  · exact pyIn_false_of_no_underscore (id_underscore op) hund

theorem readlines_handle_result (op : Op) (hcl : CleanOp op = true) {c : String}
    (hnl : NlTerm c) (bs bd : Int) :
    pyReadlines (c ++ BeginLogLine (Op.id op) ++ sjoin (txRecords op bs bd))
      = pyReadlines c ++ BeginLogLine (Op.id op) :: txRecords op bs bd := by
  rw [String.append_assoc, readlines_append hnl,
    readlines_cons_line (lineShape_Begin_id op hcl),
    readlines_of_lines _ (txRecords_lineShape op hcl bs bd)]

theorem jInv_step {done : List Op} {bal : String → Int} {c : String}
    (hinv : JInv done bal c) (op : Op)
    (hcl : CleanOp op = true)
    (hfresh : ∀ d ∈ done, pyIn (Op.id op) (Op.id d) = false) :
    Op.handle op true c
        = some (c ++ BeginLogLine (Op.id op)
            ++ sjoin (txRecords op (bal op.srcAcct) (bal op.dstAcct)))
    ∧ JInv (done ++ [op]) (applyOp bal op)
        (c ++ BeginLogLine (Op.id op)
          ++ sjoin (txRecords op (bal op.srcAcct) (bal op.dstAcct))) := by
  obtain ⟨hnl, hlines, hread⟩ := hinv
  have hac := jInv_fresh ⟨hnl, hlines, hread⟩ op hfresh
  have hspec := handle_spec op true c (bal op.srcAcct) (bal op.dstAcct) hcl hnl hac
    (hread _ (cleanOp_srcAcct hcl)) (hread _ (cleanOp_dstAcct hcl))
  constructor
  · exact hspec
  refine ⟨?_, ?_, ?_⟩
  · exact nlTerm_append_right
      (nlTerm_sjoin _ (txRecords_lineShape op hcl _ _))
      (txRecords_sjoin_ne_nil op hcl _ _)
  · intro l hl
    rw [readlines_handle_result op hcl hnl] at hl
    rcases List.mem_append.mp hl with hl | hl
    · rcases hlines l hl with ⟨op', hcl', hmem, heq⟩ | hund
      · exact Or.inl ⟨op', hcl', by simp [hmem], heq⟩
      · exact Or.inr hund
    · rcases List.mem_cons.mp hl with rfl | hl
      · exact Or.inl ⟨op, hcl, by simp, rfl⟩
      · exact Or.inr (txRecords_no_underscore op hcl _ _ l hl)
  · exact read_after_handle op true c bal hcl hnl hread

theorem runOps_inv : ∀ (ops : List Op) (done : List Op) (bal : String → Int) (c : String),
    JInv done bal c →
    (∀ op ∈ ops, CleanOp op = true) →
    (∀ op ∈ ops, ∀ d ∈ done, pyIn (Op.id op) (Op.id d) = false) →
    PairwiseNoSub ops →
    ∃ c', runOps ops c = some c'
      ∧ JInv (done ++ ops) (List.foldl applyOp bal ops) c' := by
  intro ops
  induction ops with
  | nil =>
    intro done bal c hinv _ _ _
    exact ⟨c, rfl, by simpa using hinv⟩
  | cons op rest ih =>
    intro done bal c hinv hcl hfresh hpw
    obtain ⟨hrun, hinv'⟩ := jInv_step hinv op (hcl op (by simp))
      (fun d hd => hfresh op (by simp) d hd)
    have hpw' : PairwiseNoSub rest := (List.pairwise_cons.mp hpw).2
    have hfresh' : ∀ o ∈ rest, ∀ d ∈ done ++ [op], pyIn (Op.id o) (Op.id d) = false := by
      intro o ho d hd
      rcases List.mem_append.mp hd with hd | hd
      · exact hfresh o (by simp [ho]) d hd
      · have : d = op := by simpa using hd
        subst this
        exact ((List.pairwise_cons.mp hpw).1 o ho).2
    obtain ⟨c', hc', hinv''⟩ := ih (done ++ [op]) (applyOp bal op) _ hinv'
      (fun o ho => hcl o (by simp [ho])) hfresh' hpw'
    refine ⟨c', ?_, ?_⟩
    · simp only [runOps, hrun]
      exact hc'
    · have harr : done ++ [op] ++ rest = done ++ op :: rest := by simp
      rw [harr] at hinv''
      simpa using hinv''

/-! ## `DataStore.read` depends only on the WRITE lines -/

theorem readLoop_filter (a : String) : ∀ (ls : List String),
    DataStore.readLoop a ls
      = DataStore.readLoop a (ls.filter (fun l => pyStartsWith l "WRITE")) := by
  intro ls
  induction ls with
  | nil => rfl
  | cons l ls ih =>
    by_cases hw : pyStartsWith l "WRITE" = true
    · rw [show List.filter (fun l => pyStartsWith l "WRITE") (l :: ls)
          = l :: List.filter (fun l => pyStartsWith l "WRITE") ls
        from by simp [List.filter_cons, hw]]
      rcases hsp : pySplit l with _ | ⟨t1, _ | ⟨t2, _ | ⟨t3, _ | ts⟩⟩⟩ <;>
        simp [DataStore.readLoop, hw, hsp, ih]
    · have hw' : pyStartsWith l "WRITE" = false := by simpa using hw
      rw [show List.filter (fun l => pyStartsWith l "WRITE") (l :: ls)
          = List.filter (fun l => pyStartsWith l "WRITE") ls
        from by simp [List.filter_cons, hw'], readLoop_cons_skip hw', ih]

theorem read_eq_of_wlines {c1 c2 : String} (h : wlines c1 = wlines c2) (x : String) :
    DataStore.read c1 x = DataStore.read c2 x := by
  unfold DataStore.read
  rw [readLoop_filter x (pyReadlines c1).reverse, readLoop_filter x (pyReadlines c2).reverse,
    List.filter_reverse, List.filter_reverse]
  unfold wlines at h
  rw [h]

theorem wlines_append {c d : String} (hnl : NlTerm c) :
    wlines (c ++ d) = wlines c ++ wlines d := by
  unfold wlines
  rw [readlines_append hnl, List.filter_append]

theorem wlines_single_skip {l : String} (hl : LineShape l = true)
    (hw : pyStartsWith l "WRITE" = false) : wlines l = [] := by
  unfold wlines
  rw [readlines_single hl]
  simp [hw]

theorem wlines_empty : wlines "" = [] := rfl

/-! ## The doubled-newline content written by `recover` -/

theorem sjoin_doubled (L : List String) :
    sjoin (L.map (fun l => l ++ "\n")) = sjoin (L.flatMap (fun l => [l, "\n"])) := by
  induction L with
  | nil => rfl
  | cons l L ih =>
    simp only [List.map_cons, sjoin_cons, List.flatMap_cons, List.cons_append,
      List.nil_append, ih, String.append_assoc]

theorem doubled_lineShape (L : List String) (hL : ∀ l ∈ L, LineShape l = true) :
    ∀ l ∈ L.flatMap (fun l => [l, "\n"]), LineShape l = true := by
  intro l hl
  rw [List.mem_flatMap] at hl
  obtain ⟨y, hy, hl⟩ := hl
  rcases List.mem_cons.mp hl with h1 | hl
  · rw [h1]
    exact hL y hy
  · rcases List.mem_cons.mp hl with h1 | h
    · rw [h1]
      exact lineShape_blank
    · simp at h

theorem readlines_doubled (L : List String) (hL : ∀ l ∈ L, LineShape l = true) :
    pyReadlines (sjoin (L.map (fun l => l ++ "\n")))
      = L.flatMap (fun l => [l, "\n"]) := by
  rw [sjoin_doubled, readlines_of_lines _ (doubled_lineShape L hL)]

theorem nlTerm_doubled (L : List String) (hL : ∀ l ∈ L, LineShape l = true) :
    NlTerm (sjoin (L.map (fun l => l ++ "\n"))) := by
  rw [sjoin_doubled]
  exact nlTerm_sjoin _ (doubled_lineShape L hL)

theorem filter_doubled (L : List String) :
    (L.flatMap (fun l => [l, "\n"])).filter (fun l => pyStartsWith l "WRITE")
      = L.filter (fun l => pyStartsWith l "WRITE") := by
  induction L with
  | nil => rfl
  | cons l L ih =>
    simp only [List.flatMap_cons, List.cons_append, List.nil_append, List.filter_cons]
    rw [show (pyStartsWith "\n" "WRITE") = false from sw_blank_WRITE]
    by_cases hw : pyStartsWith l "WRITE" = true <;> simp [hw, ih]

theorem cleanOp_noUnd {op : Op} (h : CleanOp op = true) : NoUndOp op = true := by
  cases op with
  | move ts src dst m =>
    obtain ⟨h1, h2, h3⟩ := cleanOp_move h
    simp only [NoUndOp, Bool.and_eq_true, decide_eq_true_eq]
    exact ⟨⟨fun hm => (cleanTok_chars h1 _ hm).2 rfl, fun hm => (cleanTok_chars h2 _ hm).2 rfl⟩,
      fun hm => (cleanTok_chars h3 _ hm).2 rfl⟩
  | withdraw ts dst m =>
    obtain ⟨h1, h2⟩ := cleanOp_withdraw h
    simp only [NoUndOp, Bool.and_eq_true, decide_eq_true_eq]
    exact ⟨fun hm => (cleanTok_chars h1 _ hm).2 rfl, fun hm => (cleanTok_chars h2 _ hm).2 rfl⟩
  | deposit ts dst m =>
    obtain ⟨h1, h2⟩ := cleanOp_deposit h
    simp only [NoUndOp, Bool.and_eq_true, decide_eq_true_eq]
    exact ⟨fun hm => (cleanTok_chars h1 _ hm).2 rfl, fun hm => (cleanTok_chars h2 _ hm).2 rfl⟩

/-! ## Remaining shared helpers for the claim theorems -/

theorem append_ne_self {s t : String} (ht : t.data ≠ []) : s ++ t ≠ s := by
  intro h
  have h2 := congrArg String.data h
  rw [String.data_append] at h2
  have h3 : s.data.length + t.data.length = s.data.length := by
    have := congrArg List.length h2
    simpa using this
  have h4 : t.data.length = 0 := by omega
  exact ht (List.eq_nil_of_length_eq_zero h4)

theorem move_fail_spec (ts s d : String) (m : Int) (wb : Bool) (c : String) (b : Int)
    (hcl : CleanOp (Op.move ts s d m) = true) (hnl : NlTerm c)
    (hac : DataStore.already_committed c (Op.id (Op.move ts s d m)) = false)
    (hs : DataStore.read c s = some b) (hlt : b < m) :
    Op.handle (Op.move ts s d m) wb c
      = some (c ++ (if wb then BeginLogLine (Op.id (Op.move ts s d m)) else "")
          ++ (ReadLogLine s b ++ CommitLogLine (some (errMsg b m)))) := by
  obtain ⟨he1, hnl1, hr1⟩ := handle_c1 (Op.move ts s d m) hcl wb c hnl
  simp only [Op.handle, hac, Bool.false_eq_true, if_false, he1, hr1 s, hs]
  rw [if_pos hlt]
  refine congrArg some (strExt ?_)
  simp [DataStore.log, String.data_append]

/-- The records of a successful transaction end in a bare `COMMIT`. -/
theorem txRecords_success_commit (op : Op) (bs bd : Int)
    (hsucc : ¬ bs < Op.amt op ∨ ∃ ts a m, op = Op.deposit ts a m) :
    CommitLogLine none ∈ txRecords op bs bd := by
  cases op with
  | move ts src dst m =>
    rcases hsucc with hsucc | ⟨_, _, _, heq⟩
    · simp only [Op.amt] at hsucc
      simp [txRecords, if_neg hsucc]
    · simp at heq
  | withdraw ts a m =>
    rcases hsucc with hsucc | ⟨_, _, _, heq⟩
    · simp only [Op.amt] at hsucc
      simp [txRecords, if_neg hsucc]
    · simp at heq
  | deposit ts a m => simp [txRecords]

/-! ## C6 (code bug): the truncate-and-rewrite step is not idempotent -/

/-- C6: the claim says that applying the recover truncate-and-rewrite step
to a journal already ending at its last `BEGIN` leaves the file content
byte-for-byte unchanged and that the log does not grow across repeated
crash-recovery cycles.  The code appends `line + NEWLINE` although each
line read by `readlines` already ends in a newline, so the content changes
and the file grows by one byte per retained line on every cycle. -/
theorem claim_C6_truncate_grows :
    DataStore.lastBeginIdx (pyReadlines "BEGIN dep_1_A_5\n") = some 0
    ∧ recoverTruncate "BEGIN dep_1_A_5\n" = "BEGIN dep_1_A_5\n\n"
    ∧ recoverTruncate "BEGIN dep_1_A_5\n" ≠ "BEGIN dep_1_A_5\n"
    ∧ recoverTruncate "COMMIT\nBEGIN dep_1_A_5\n" = "COMMIT\n\nBEGIN dep_1_A_5\n\n"
    ∧ recoverTruncate (recoverTruncate "COMMIT\nBEGIN dep_1_A_5\n")
        = "COMMIT\n\n\n\nBEGIN dep_1_A_5\n\n"
    ∧ ("COMMIT\nBEGIN dep_1_A_5\n".data.length = 23
        ∧ (recoverTruncate "COMMIT\nBEGIN dep_1_A_5\n").data.length = 25
        ∧ (recoverTruncate (recoverTruncate "COMMIT\nBEGIN dep_1_A_5\n")).data.length = 27) := by
  refine ⟨by decide, by decide, by decide, by decide, by decide, by decide, by decide, by decide⟩

/-! ## C7: substring containment produces idempotency false positives -/

/-- C7: with `id1 = dep_1_A_5` a substring of `id2 = dep_1_A_55`, a journal
in which only the `id2` operation has begun and committed makes
`already_committed` return `true` for `id1`, although no `BEGIN` for `id1`
is in the journal. -/
theorem claim_C7_substring_false_positive :
    Op.id (Op.deposit "1" "A" 5) ≠ Op.id (Op.deposit "1" "A" 55)
    ∧ pyIn (Op.id (Op.deposit "1" "A" 5)) (Op.id (Op.deposit "1" "A" 55)) = true
    ∧ runOps [Op.deposit "1" "A" 55] ""
        = some "BEGIN dep_1_A_55\nREAD A 0\nWRITE A 55\nCOMMIT\n"
    ∧ (∀ l ∈ pyReadlines "BEGIN dep_1_A_55\nREAD A 0\nWRITE A 55\nCOMMIT\n",
        ¬ l = BeginLogLine (Op.id (Op.deposit "1" "A" 5)))
    ∧ DataStore.already_committed "BEGIN dep_1_A_55\nREAD A 0\nWRITE A 55\nCOMMIT\n"
        (Op.id (Op.deposit "1" "A" 5)) = true := by
  refine ⟨by decide, by decide, by decide, by decide, by decide⟩

/-! ## C8: operation ids round-trip through `parse_op_from_id` -/

/-- C8: for every operation whose timestamp and account fields contain no
`'_'` separator, `parse_op_from_id (op.id())` reconstructs the same
variant with equal fields, hence an operation with an id equal to
`op.id()`. -/
theorem claim_C8_parse_id_roundtrip (op : Op) (h : NoUndOp op = true) :
    DataStore.parse_op_from_id (Op.id op) = some op
    ∧ (DataStore.parse_op_from_id (Op.id op)).map Op.id = some (Op.id op) := by
  have h1 := parse_id_roundtrip op h
  exact ⟨h1, by rw [h1]; rfl⟩

theorem claim_C8_witness :
    NoUndOp (Op.move "9" "A" "B" 3) = true
    ∧ DataStore.parse_op_from_id (Op.id (Op.move "9" "A" "B" 3))
        = some (Op.move "9" "A" "B" 3) := by
  refine ⟨by decide, (claim_C8_parse_id_roundtrip (Op.move "9" "A" "B" 3) (by decide)).1⟩

/-! ## C9: `DataStore.read` ignores commit status -/

/-- C9: if the most recent `WRITE` record for account `a` carries value
`v`, then `read a` returns `v`, regardless of whether that write's
transaction has committed — any trailing lines that are not writes to `a`
(for example an open transaction's records, with no `COMMIT` yet) do not
affect the result. -/
theorem claim_C9_read_ignores_commit (c : String) (hnl : NlTerm c)
    (a : String) (ha : CleanTok a = true) (v : Int) (rest : List String)
    (hrest : ∀ l ∈ rest, LineShape l = true ∧ SkipFor a l) :
    DataStore.read (c ++ WriteLogLine a v ++ sjoin rest) a = some v := by
  have hnl2 : NlTerm (c ++ WriteLogLine a v) :=
    nlTerm_append_line (lineShape_Write a v ha)
  unfold DataStore.read
  rw [readlines_append hnl2, readlines_of_lines rest (fun l hl => (hrest l hl).1),
    List.reverse_append,
    readLoop_append_skip a _ _ (fun l hl => (hrest l (List.mem_reverse.mp hl)).2)]
  have h2 : DataStore.readLoop a (pyReadlines (c ++ WriteLogLine a v)).reverse
      = DataStore.read (c ++ WriteLogLine a v) a := rfl
  rw [h2, read_append_write hnl a v ha a, if_pos rfl]

theorem claim_C9_witness :
    DataStore.read ("BEGIN dep_1_A_5\nREAD A 0\n" ++ WriteLogLine "A" 5
      ++ sjoin ["READ B 0\n"]) "A" = some 5 := by
  apply claim_C9_read_ignores_commit "BEGIN dep_1_A_5\nREAD A 0\n" (Or.inr rfl)
    "A" (by decide) 5 ["READ B 0\n"]
  intro l hl
  have hl2 : l = "READ B 0\n" := by simpa using hl
  subst hl2
  exact ⟨by decide, Or.inl (by decide)⟩

/-! ## C10: a self-move restores the original balance -/

/-- C10: for a covered self-move `Move(a, a, m)`, `handle` appends a
success transaction in which the destination read observes the source
write's value `b - m` and the destination write restores the original
balance `b`; `read a` is unchanged. -/
theorem claim_C10_self_move (ts a : String) (m : Int) (c : String) (b : Int)
    (hcl : CleanOp (Op.move ts a a m) = true) (hnl : NlTerm c)
    (hac : DataStore.already_committed c (Op.id (Op.move ts a a m)) = false)
    (hb : DataStore.read c a = some b) (hge : ¬ b < m) :
    Op.handle (Op.move ts a a m) true c
        = some (c ++ BeginLogLine (Op.id (Op.move ts a a m))
            ++ (ReadLogLine a b ++ (WriteLogLine a (b - m)
              ++ (ReadLogLine a (b - m) ++ (WriteLogLine a b ++ CommitLogLine none)))))
    ∧ DataStore.read (c ++ BeginLogLine (Op.id (Op.move ts a a m))
            ++ (ReadLogLine a b ++ (WriteLogLine a (b - m)
              ++ (ReadLogLine a (b - m) ++ (WriteLogLine a b ++ CommitLogLine none))))) a
        = some b := by
  have ha : CleanTok a = true := (cleanOp_move hcl).2.1
  have hspec := handle_spec (Op.move ts a a m) true c b b hcl hnl hac hb hb
  constructor
  · rw [hspec]
    refine congrArg some (strExt ?_)
    simp [txRecords, hge, String.data_append, Int.sub_add_cancel]
  · have hassoc : c ++ BeginLogLine (Op.id (Op.move ts a a m))
          ++ (ReadLogLine a b ++ (WriteLogLine a (b - m)
            ++ (ReadLogLine a (b - m) ++ (WriteLogLine a b ++ CommitLogLine none))))
        = (((((c ++ BeginLogLine (Op.id (Op.move ts a a m))) ++ ReadLogLine a b)
            ++ WriteLogLine a (b - m)) ++ ReadLogLine a (b - m)) ++ WriteLogLine a b)
            ++ CommitLogLine none := by
      apply strExt
      simp [String.data_append]
    rw [hassoc]
    have hnl1 : NlTerm (c ++ BeginLogLine (Op.id (Op.move ts a a m))) :=
      nlTerm_append_line (lineShape_Begin_id _ hcl)
    have hnl2 : NlTerm ((c ++ BeginLogLine (Op.id (Op.move ts a a m))) ++ ReadLogLine a b) :=
      nlTerm_append_line (lineShape_Read a b ha)
    have hnl3 : NlTerm (((c ++ BeginLogLine (Op.id (Op.move ts a a m))) ++ ReadLogLine a b)
        ++ WriteLogLine a (b - m)) :=
      nlTerm_append_line (lineShape_Write a (b - m) ha)
    have hnl4 : NlTerm ((((c ++ BeginLogLine (Op.id (Op.move ts a a m))) ++ ReadLogLine a b)
        ++ WriteLogLine a (b - m)) ++ ReadLogLine a (b - m)) :=
      nlTerm_append_line (lineShape_Read a (b - m) ha)
    have hnl5 : NlTerm (((((c ++ BeginLogLine (Op.id (Op.move ts a a m))) ++ ReadLogLine a b)
        ++ WriteLogLine a (b - m)) ++ ReadLogLine a (b - m)) ++ WriteLogLine a b) :=
      nlTerm_append_line (lineShape_Write a b ha)
    rw [read_append_line_skip hnl5 lineShape_CommitNone (sw_commit_WRITE _) a,
      read_append_write hnl4 a b ha a, if_pos rfl]

theorem claim_C10_witness :
    ¬ (7 : Int) < 3
    ∧ Op.handle (Op.move "9" "A" "A" 3) true "WRITE A 7\n"
        = some ("WRITE A 7\n" ++ BeginLogLine (Op.id (Op.move "9" "A" "A" 3))
            ++ (ReadLogLine "A" 7 ++ (WriteLogLine "A" (7 - 3)
              ++ (ReadLogLine "A" (7 - 3) ++ (WriteLogLine "A" 7 ++ CommitLogLine none))))) := by
  refine ⟨by decide, (claim_C10_self_move "9" "A" 3 "WRITE A 7\n" 7 (by decide) (Or.inr rfl)
    (by decide) (by decide) (by decide)).1⟩

/-! ## C4: insufficient funds leaves every balance unchanged -/

/-- C4: when a `Withdraw` or `Move` observes a balance strictly below the
amount, `handle` appends only its `BEGIN`, one `READ` and a `COMMIT`
carrying the error message — no `WRITE` for any account, and in `Move` the
check precedes any `WRITE` — so `DataStore.read` is unchanged for every
account. -/
theorem claim_C4_insufficient_unchanged :
    (∀ (ts a : String) (m : Int) (c : String) (b : Int),
      CleanOp (Op.withdraw ts a m) = true → NlTerm c →
      DataStore.already_committed c (Op.id (Op.withdraw ts a m)) = false →
      DataStore.read c a = some b → b < m →
      Op.handle (Op.withdraw ts a m) true c
          = some (c ++ BeginLogLine (Op.id (Op.withdraw ts a m))
              ++ (ReadLogLine a b ++ CommitLogLine (some (errMsg b m))))
        ∧ ∀ x, DataStore.read (c ++ BeginLogLine (Op.id (Op.withdraw ts a m))
              ++ (ReadLogLine a b ++ CommitLogLine (some (errMsg b m)))) x
            = DataStore.read c x)
    ∧ (∀ (ts s d : String) (m : Int) (c : String) (b : Int),
      CleanOp (Op.move ts s d m) = true → NlTerm c →
      DataStore.already_committed c (Op.id (Op.move ts s d m)) = false →
      DataStore.read c s = some b → b < m →
      Op.handle (Op.move ts s d m) true c
          = some (c ++ BeginLogLine (Op.id (Op.move ts s d m))
              ++ (ReadLogLine s b ++ CommitLogLine (some (errMsg b m))))
        ∧ ∀ x, DataStore.read (c ++ BeginLogLine (Op.id (Op.move ts s d m))
              ++ (ReadLogLine s b ++ CommitLogLine (some (errMsg b m)))) x
            = DataStore.read c x) := by
  constructor
  · intro ts a m c b hcl hnl hac hb hlt
    have ha : CleanTok a = true := (cleanOp_withdraw hcl).2
    constructor
    · have hspec := handle_spec (Op.withdraw ts a m) true c b b hcl hnl hac hb hb
      rw [hspec]
      refine congrArg some (strExt ?_)
      simp [txRecords, hlt, String.data_append]
    · intro x
      have hassoc : c ++ BeginLogLine (Op.id (Op.withdraw ts a m))
            ++ (ReadLogLine a b ++ CommitLogLine (some (errMsg b m)))
          = ((c ++ BeginLogLine (Op.id (Op.withdraw ts a m))) ++ ReadLogLine a b)
            ++ CommitLogLine (some (errMsg b m)) := by
        apply strExt
        simp [String.data_append]
      rw [hassoc,
        read_append_line_skip (nlTerm_append_line (lineShape_Read a b ha))
          (lineShape_CommitErr b m) (sw_commit_WRITE _) x,
        read_append_line_skip (nlTerm_append_line (lineShape_Begin_id _ hcl))
          (lineShape_Read a b ha) (sw_read_WRITE _ _) x,
        read_append_line_skip hnl (lineShape_Begin_id _ hcl) (sw_begin_WRITE _) x]
  · intro ts s d m c b hcl hnl hac hb hlt
    have hsrc : CleanTok s = true := (cleanOp_move hcl).2.1
    constructor
    · have hspec := move_fail_spec ts s d m true c b hcl hnl hac hb hlt
      rw [hspec]
      refine congrArg some (strExt ?_)
      simp [String.data_append]
    · intro x
      have hassoc : c ++ BeginLogLine (Op.id (Op.move ts s d m))
            ++ (ReadLogLine s b ++ CommitLogLine (some (errMsg b m)))
          = ((c ++ BeginLogLine (Op.id (Op.move ts s d m))) ++ ReadLogLine s b)
            ++ CommitLogLine (some (errMsg b m)) := by
        apply strExt
        simp [String.data_append]
      rw [hassoc,
        read_append_line_skip (nlTerm_append_line (lineShape_Read s b hsrc))
          (lineShape_CommitErr b m) (sw_commit_WRITE _) x,
        read_append_line_skip (nlTerm_append_line (lineShape_Begin_id _ hcl))
          (lineShape_Read s b hsrc) (sw_read_WRITE _ _) x,
        read_append_line_skip hnl (lineShape_Begin_id _ hcl) (sw_begin_WRITE _) x]

theorem claim_C4_witness :
    (0 : Int) < 5
    ∧ Op.handle (Op.withdraw "1" "A" 5) true ""
        = some ("" ++ BeginLogLine (Op.id (Op.withdraw "1" "A" 5))
            ++ (ReadLogLine "A" 0 ++ CommitLogLine (some (errMsg 0 5)))) := by
  refine ⟨by decide, (claim_C4_insufficient_unchanged.1 "1" "A" 5 "" 0 (by decide) nlTerm_empty
    (by decide) (by decide) (by decide)).1⟩

/-! ## C1: idempotency of `handle` -/

/-- C1 (counterexample): a `Withdraw` that fails the funds check closes
with an error-message `COMMIT`; `already_committed` only matches a bare
`COMMIT` line, so a second `handle()` call re-executes and appends a whole
duplicate transaction instead of being a no-op. -/
theorem claim_C1_counterexample :
    Op.handle (Op.withdraw "1" "A" 5) true ""
        = some "BEGIN wit_1_A_5\nREAD A 0\nCOMMIT ERROR: insufficient funds: 0 < 5\n"
    ∧ Op.handle (Op.withdraw "1" "A" 5) true
          "BEGIN wit_1_A_5\nREAD A 0\nCOMMIT ERROR: insufficient funds: 0 < 5\n"
        ≠ some "BEGIN wit_1_A_5\nREAD A 0\nCOMMIT ERROR: insufficient funds: 0 < 5\n" := by
  refine ⟨by decide, by decide⟩

/-- C1 (amended): for an operation that is not yet committed in the
journal and whose execution commits successfully (deposits always;
withdrawals and moves when the observed source balance covers the amount),
calling `handle()` twice in sequence produces the same journal content as
calling it once: the second invocation appends no records. -/
theorem claim_C1_amended_idempotent (op : Op) (c : String) (bs bd : Int)
    (hcl : CleanOp op = true) (hnl : NlTerm c)
    (hac : DataStore.already_committed c (Op.id op) = false)
    (hs : DataStore.read c op.srcAcct = some bs)
    (hd : DataStore.read c op.dstAcct = some bd)
    (hsucc : ¬ bs < Op.amt op ∨ ∃ ts a m, op = Op.deposit ts a m) :
    ∃ c', Op.handle op true c = some c' ∧ Op.handle op true c' = some c' := by
  have hspec : Op.handle op true c
      = some (c ++ BeginLogLine (Op.id op) ++ sjoin (txRecords op bs bd)) := by
    simpa using handle_spec op true c bs bd hcl hnl hac hs hd
  refine ⟨c ++ BeginLogLine (Op.id op) ++ sjoin (txRecords op bs bd), hspec, ?_⟩
  have hlinesF : pyReadlines (c ++ BeginLogLine (Op.id op) ++ sjoin (txRecords op bs bd))
      = pyReadlines c ++ BeginLogLine (Op.id op) :: txRecords op bs bd :=
    readlines_handle_result op hcl hnl bs bd
  have hacF : DataStore.already_committed
      (c ++ BeginLogLine (Op.id op) ++ sjoin (txRecords op bs bd))
      (Op.id op) = true := by
    unfold DataStore.already_committed
    rw [hlinesF, acLoop_append]
    have h1 : DataStore.acLoop (Op.id op) false (pyReadlines c) = false := hac
    rw [h1]
    have hdec : (pyStrip (BeginLogLine (Op.id op)) = "COMMIT") = False := by
      simp [strip_Begin_ne_COMMIT op hcl]
    have h2 : DataStore.acLoop (Op.id op)
        (false || (pyReadlines c).any (fun l => pyIn (Op.id op) (pyStrip l)))
        (BeginLogLine (Op.id op) :: txRecords op bs bd) = true := by
      simp only [DataStore.acLoop, pyIn_id_strip_begin_self op hcl, Bool.or_true, hdec]
      rw [if_neg (by simp)]
      exact acLoop_commit_true _ _
        ⟨CommitLogLine none, txRecords_success_commit op bs bd hsucc, strip_CommitNone⟩
    rw [h2]
    simp
  simp [Op.handle, hacF]

theorem claim_C1_witness :
    ∃ c', Op.handle (Op.deposit "1" "A" 5) true "" = some c'
      ∧ Op.handle (Op.deposit "1" "A" 5) true c' = some c' :=
  claim_C1_amended_idempotent (Op.deposit "1" "A" 5) "" 0 0 (by decide) nlTerm_empty
    (by decide) (by decide) (by decide) (Or.inr ⟨"1", "A", 5, rfl⟩)

/-! ## C2: a failed operation is not marked complete -/

/-- C2 (counterexample): after a `Withdraw` closes its transaction with an
insufficient-funds error `COMMIT`, `already_committed` returns `false` for
its operation id, not `true` as the claim states. -/
theorem claim_C2_counterexample :
    Op.handle (Op.withdraw "1" "A" 5) true ""
        = some ("" ++ BeginLogLine (Op.id (Op.withdraw "1" "A" 5))
            ++ (ReadLogLine "A" 0 ++ CommitLogLine (some (errMsg 0 5))))
    ∧ DataStore.already_committed
        ("" ++ BeginLogLine (Op.id (Op.withdraw "1" "A" 5))
            ++ (ReadLogLine "A" 0 ++ CommitLogLine (some (errMsg 0 5))))
        (Op.id (Op.withdraw "1" "A" 5)) = false := by
  refine ⟨by decide, by decide⟩

/-- C2 (amended): after a `Withdraw` or `Move` closes with an
insufficient-funds error `COMMIT` (and no line containing its id is
followed by a bare `COMMIT`), `already_committed` returns `false` for its
id, so re-invoking `handle()` on the same id is not a no-op: it re-executes
the operation and appends a fresh duplicate attempt. -/
theorem claim_C2_amended_failed_not_committed :
    (∀ (ts a : String) (m : Int) (c : String) (b : Int),
      CleanOp (Op.withdraw ts a m) = true → NlTerm c →
      (∀ l ∈ pyReadlines c, pyIn (Op.id (Op.withdraw ts a m)) (pyStrip l) = false) →
      DataStore.read c a = some b → b < m →
      ∃ c', Op.handle (Op.withdraw ts a m) true c = some c'
        ∧ DataStore.already_committed c' (Op.id (Op.withdraw ts a m)) = false
        ∧ Op.handle (Op.withdraw ts a m) true c' ≠ some c')
    ∧ (∀ (ts s d : String) (m : Int) (c : String) (b : Int),
      CleanOp (Op.move ts s d m) = true → NlTerm c →
      (∀ l ∈ pyReadlines c, pyIn (Op.id (Op.move ts s d m)) (pyStrip l) = false) →
      DataStore.read c s = some b → b < m →
      ∃ c', Op.handle (Op.move ts s d m) true c = some c'
        ∧ DataStore.already_committed c' (Op.id (Op.move ts s d m)) = false
        ∧ Op.handle (Op.move ts s d m) true c' ≠ some c') := by
  constructor
  · intro ts a m c b hcl hnl hfresh hb hlt
    have ha : CleanTok a = true := (cleanOp_withdraw hcl).2
    have hac : DataStore.already_committed c (Op.id (Op.withdraw ts a m)) = false :=
      acLoop_flag_false _ _ hfresh
    have hspec : Op.handle (Op.withdraw ts a m) true c
        = some (c ++ BeginLogLine (Op.id (Op.withdraw ts a m))
            ++ sjoin (txRecords (Op.withdraw ts a m) b b)) := by
      simpa using handle_spec (Op.withdraw ts a m) true c b b hcl hnl hac hb hb
    refine ⟨c ++ BeginLogLine (Op.id (Op.withdraw ts a m))
        ++ sjoin (txRecords (Op.withdraw ts a m) b b), hspec, ?_, ?_⟩
    · have hlinesF := readlines_handle_result (Op.withdraw ts a m) hcl hnl b b
      unfold DataStore.already_committed
      rw [hlinesF, acLoop_append]
      have h1 : DataStore.acLoop (Op.id (Op.withdraw ts a m)) false (pyReadlines c) = false :=
        hac
      rw [h1, acLoop_no_commit _ _ _ ?_]
      · simp
      · intro l hl
        rcases List.mem_cons.mp hl with rfl | hl
        · exact strip_Begin_ne_COMMIT _ hcl
        · simp only [txRecords, if_pos hlt, List.mem_cons] at hl
          rcases hl with rfl | rfl | h
          · exact strip_Read_ne_COMMIT a b
          · exact strip_CommitErr_ne_COMMIT b m
          · simp at h
    · have hnlF : NlTerm (c ++ BeginLogLine (Op.id (Op.withdraw ts a m))
          ++ sjoin (txRecords (Op.withdraw ts a m) b b)) :=
        nlTerm_append_right (nlTerm_sjoin _ (txRecords_lineShape _ hcl b b))
          (txRecords_sjoin_ne_nil _ hcl b b)
      have hacF : DataStore.already_committed
          (c ++ BeginLogLine (Op.id (Op.withdraw ts a m))
            ++ sjoin (txRecords (Op.withdraw ts a m) b b))
          (Op.id (Op.withdraw ts a m)) = false := by
        have hlinesF := readlines_handle_result (Op.withdraw ts a m) hcl hnl b b
        unfold DataStore.already_committed
        rw [hlinesF, acLoop_append]
        have h1 : DataStore.acLoop (Op.id (Op.withdraw ts a m)) false (pyReadlines c) = false :=
          hac
        rw [h1, acLoop_no_commit _ _ _ ?_]
        · simp
        · intro l hl
          rcases List.mem_cons.mp hl with rfl | hl
          · exact strip_Begin_ne_COMMIT _ hcl
          · simp only [txRecords, if_pos hlt, List.mem_cons] at hl
            rcases hl with rfl | rfl | h
            · exact strip_Read_ne_COMMIT a b
            · exact strip_CommitErr_ne_COMMIT b m
            · simp at h
      have hreadF : DataStore.read
          (c ++ BeginLogLine (Op.id (Op.withdraw ts a m))
            ++ sjoin (txRecords (Op.withdraw ts a m) b b)) a = some b := by
        have hassoc : c ++ BeginLogLine (Op.id (Op.withdraw ts a m))
              ++ sjoin (txRecords (Op.withdraw ts a m) b b)
            = ((c ++ BeginLogLine (Op.id (Op.withdraw ts a m))) ++ ReadLogLine a b)
              ++ CommitLogLine (some (errMsg b m)) := by
          apply strExt
          simp [txRecords, hlt, String.data_append]
        rw [hassoc,
          read_append_line_skip (nlTerm_append_line (lineShape_Read a b ha))
            (lineShape_CommitErr b m) (sw_commit_WRITE _) a,
          read_append_line_skip (nlTerm_append_line (lineShape_Begin_id _ hcl))
            (lineShape_Read a b ha) (sw_read_WRITE _ _) a,
          read_append_line_skip hnl (lineShape_Begin_id _ hcl) (sw_begin_WRITE _) a]
        exact hb
      have hspec2 : Op.handle (Op.withdraw ts a m) true
          (c ++ BeginLogLine (Op.id (Op.withdraw ts a m))
            ++ sjoin (txRecords (Op.withdraw ts a m) b b))
          = some ((c ++ BeginLogLine (Op.id (Op.withdraw ts a m))
              ++ sjoin (txRecords (Op.withdraw ts a m) b b))
            ++ BeginLogLine (Op.id (Op.withdraw ts a m))
            ++ sjoin (txRecords (Op.withdraw ts a m) b b)) := by
        simpa using handle_spec (Op.withdraw ts a m) true
          (c ++ BeginLogLine (Op.id (Op.withdraw ts a m))
            ++ sjoin (txRecords (Op.withdraw ts a m) b b)) b b hcl hnlF hacF hreadF hreadF
      rw [hspec2]
      intro heq
      have h3 := Option.some.inj heq
      rw [String.append_assoc] at h3
      exact append_ne_self (by rw [String.data_append, data_BeginLogLine]; simp) h3
  · intro ts s d m c b hcl hnl hfresh hb hlt
    have hsrc : CleanTok s = true := (cleanOp_move hcl).2.1
    have hac : DataStore.already_committed c (Op.id (Op.move ts s d m)) = false :=
      acLoop_flag_false _ _ hfresh
    have hspec : Op.handle (Op.move ts s d m) true c
        = some (c ++ BeginLogLine (Op.id (Op.move ts s d m))
            ++ (ReadLogLine s b ++ CommitLogLine (some (errMsg b m)))) := by
      simpa using move_fail_spec ts s d m true c b hcl hnl hac hb hlt
    refine ⟨c ++ BeginLogLine (Op.id (Op.move ts s d m))
        ++ (ReadLogLine s b ++ CommitLogLine (some (errMsg b m))), hspec, ?_, ?_⟩
    · have hlines2 : pyReadlines (c ++ BeginLogLine (Op.id (Op.move ts s d m))
            ++ (ReadLogLine s b ++ CommitLogLine (some (errMsg b m))))
          = pyReadlines c ++ BeginLogLine (Op.id (Op.move ts s d m))
              :: ReadLogLine s b :: [CommitLogLine (some (errMsg b m))] := by
        have hassoc : c ++ BeginLogLine (Op.id (Op.move ts s d m))
              ++ (ReadLogLine s b ++ CommitLogLine (some (errMsg b m)))
            = c ++ (BeginLogLine (Op.id (Op.move ts s d m))
                ++ (ReadLogLine s b ++ (CommitLogLine (some (errMsg b m)) ++ ""))) := by
          apply strExt
          simp [String.data_append]
        rw [hassoc, readlines_append hnl,
          readlines_cons_line (lineShape_Begin_id _ hcl),
          readlines_cons_line (lineShape_Read s b hsrc),
          readlines_cons_line (lineShape_CommitErr b m), readlines_empty]
      unfold DataStore.already_committed
      rw [hlines2, acLoop_append]
      have h1 : DataStore.acLoop (Op.id (Op.move ts s d m)) false (pyReadlines c) = false := hac
      rw [h1, acLoop_no_commit _ _ _ ?_]
      · simp
      · intro l hl
        simp only [List.mem_cons] at hl
        rcases hl with rfl | rfl | rfl | h
        · exact strip_Begin_ne_COMMIT _ hcl
        · exact strip_Read_ne_COMMIT s b
        · exact strip_CommitErr_ne_COMMIT b m
        · simp at h
    · have hacF : DataStore.already_committed
          (c ++ BeginLogLine (Op.id (Op.move ts s d m))
            ++ (ReadLogLine s b ++ CommitLogLine (some (errMsg b m))))
          (Op.id (Op.move ts s d m)) = false := by
        have hlines2 : pyReadlines (c ++ BeginLogLine (Op.id (Op.move ts s d m))
              ++ (ReadLogLine s b ++ CommitLogLine (some (errMsg b m))))
            = pyReadlines c ++ BeginLogLine (Op.id (Op.move ts s d m))
                :: ReadLogLine s b :: [CommitLogLine (some (errMsg b m))] := by
          have hassoc : c ++ BeginLogLine (Op.id (Op.move ts s d m))
                ++ (ReadLogLine s b ++ CommitLogLine (some (errMsg b m)))
              = c ++ (BeginLogLine (Op.id (Op.move ts s d m))
                  ++ (ReadLogLine s b ++ (CommitLogLine (some (errMsg b m)) ++ ""))) := by
            apply strExt
            simp [String.data_append]
          rw [hassoc, readlines_append hnl,
            readlines_cons_line (lineShape_Begin_id _ hcl),
            readlines_cons_line (lineShape_Read s b hsrc),
            readlines_cons_line (lineShape_CommitErr b m), readlines_empty]
        unfold DataStore.already_committed
        rw [hlines2, acLoop_append]
        have h1 : DataStore.acLoop (Op.id (Op.move ts s d m)) false (pyReadlines c) = false := hac
        rw [h1, acLoop_no_commit _ _ _ ?_]
        · simp
        · intro l hl
          simp only [List.mem_cons] at hl
          rcases hl with rfl | rfl | rfl | h
          · exact strip_Begin_ne_COMMIT _ hcl
          · exact strip_Read_ne_COMMIT s b
          · exact strip_CommitErr_ne_COMMIT b m
          · simp at h
      have hnlF : NlTerm (c ++ BeginLogLine (Op.id (Op.move ts s d m))
            ++ (ReadLogLine s b ++ CommitLogLine (some (errMsg b m)))) := by
        have hassoc : c ++ BeginLogLine (Op.id (Op.move ts s d m))
              ++ (ReadLogLine s b ++ CommitLogLine (some (errMsg b m)))
            = ((c ++ BeginLogLine (Op.id (Op.move ts s d m))) ++ ReadLogLine s b)
              ++ CommitLogLine (some (errMsg b m)) := by
          apply strExt
          simp [String.data_append]
        rw [hassoc]
        exact nlTerm_append_line (lineShape_CommitErr b m)
      have hreadF : DataStore.read
          (c ++ BeginLogLine (Op.id (Op.move ts s d m))
            ++ (ReadLogLine s b ++ CommitLogLine (some (errMsg b m)))) s = some b := by
        have hassoc : c ++ BeginLogLine (Op.id (Op.move ts s d m))
              ++ (ReadLogLine s b ++ CommitLogLine (some (errMsg b m)))
            = ((c ++ BeginLogLine (Op.id (Op.move ts s d m))) ++ ReadLogLine s b)
              ++ CommitLogLine (some (errMsg b m)) := by
          apply strExt
          simp [String.data_append]
        rw [hassoc,
          read_append_line_skip (nlTerm_append_line (lineShape_Read s b hsrc))
            (lineShape_CommitErr b m) (sw_commit_WRITE _) s,
          read_append_line_skip (nlTerm_append_line (lineShape_Begin_id _ hcl))
            (lineShape_Read s b hsrc) (sw_read_WRITE _ _) s,
          read_append_line_skip hnl (lineShape_Begin_id _ hcl) (sw_begin_WRITE _) s]
        exact hb
      have hspec2 : Op.handle (Op.move ts s d m) true
          (c ++ BeginLogLine (Op.id (Op.move ts s d m))
            ++ (ReadLogLine s b ++ CommitLogLine (some (errMsg b m))))
          = some ((c ++ BeginLogLine (Op.id (Op.move ts s d m))
              ++ (ReadLogLine s b ++ CommitLogLine (some (errMsg b m))))
            ++ BeginLogLine (Op.id (Op.move ts s d m))
            ++ (ReadLogLine s b ++ CommitLogLine (some (errMsg b m)))) := by
        simpa using move_fail_spec ts s d m true
          (c ++ BeginLogLine (Op.id (Op.move ts s d m))
            ++ (ReadLogLine s b ++ CommitLogLine (some (errMsg b m)))) b hcl hnlF hacF hreadF hlt
      rw [hspec2]
      intro heq
      have h3 := Option.some.inj heq
      rw [String.append_assoc] at h3
      exact append_ne_self (by rw [String.data_append, data_BeginLogLine]; simp) h3

theorem claim_C2_witness :
    ∃ c', Op.handle (Op.withdraw "1" "A" 5) true "" = some c'
      ∧ DataStore.already_committed c' (Op.id (Op.withdraw "1" "A" 5)) = false
      ∧ Op.handle (Op.withdraw "1" "A" 5) true c' ≠ some c' :=
  claim_C2_amended_failed_not_committed.1 "1" "A" 5 "" 0 (by decide) nlTerm_empty
    (by decide) (by decide) (by decide)

/-- C3: for every sequence of clean operations with pairwise non-substring
ids, executed one at a time on an initially empty journal, every handle call
succeeds and `DataStore.read` on each clean account equals the arithmetic
sum of the signed amounts applied by the successfully committed operations
(`List.foldl applyOp` from the all-zero assignment), failed
insufficient-funds attempts contributing nothing; on accounts never written
the value is the initial 0. -/
theorem claim_C3_balance (ops : List Op)
    (hcl : ∀ op ∈ ops, CleanOp op = true)
    (hns : PairwiseNoSub ops) :
    ∃ c, runOps ops "" = some c
      ∧ ∀ a, CleanTok a = true →
          DataStore.read c a = some (List.foldl applyOp (fun _ => 0) ops a) := by
  obtain ⟨c, hrun, hinv⟩ := runOps_inv ops [] (fun _ => 0) "" jInv_empty hcl
    (by intro op _ d hd; simp at hd) hns
  exact ⟨c, hrun, fun a ha => hinv.2.2 a ha⟩

theorem claim_C3_witness :
    ∃ c, runOps [Op.deposit "1" "A" 5, Op.deposit "2" "A" 10,
        Op.withdraw "3" "A" 100, Op.move "4" "A" "B" 15] "" = some c
      ∧ ∀ a, CleanTok a = true →
          DataStore.read c a = some (List.foldl applyOp (fun _ => 0)
            [Op.deposit "1" "A" 5, Op.deposit "2" "A" 10,
             Op.withdraw "3" "A" 100, Op.move "4" "A" "B" 15] a) :=
  claim_C3_balance _ (by decide) (by unfold PairwiseNoSub; decide)

/-- C5: a journal cut strictly between a fresh operation's `BEGIN` record and
its `COMMIT` — content `C ++ BEGIN-line ++ s` where `s` is any partial record
suffix with no `BEGIN`-prefixed line — recovers to a journal whose
`DataStore.read` agrees on every account with the journal produced by the
uninterrupted run of the operation: recovery truncates back to the `BEGIN`
itself, discarding every partial `READ`/`WRITE` in `s`, and replays the
operation to completion. -/
theorem claim_C5_recovery (op : Op) (C s : String) (bs bd : Int)
    (hcl : CleanOp op = true) (hnl : NlTerm C)
    (hfresh : ∀ l ∈ pyReadlines C, pyIn (Op.id op) (pyStrip l) = false)
    (hsB : ∀ l ∈ pyReadlines s, pyStartsWith l "BEGIN" = false)
    (hbs : DataStore.read C op.srcAcct = some bs)
    (hbd : DataStore.read C op.dstAcct = some bd) :
    ∃ F R, Op.handle op true C = some F
      ∧ DataStore.recover (C ++ BeginLogLine (Op.id op) ++ s) = some R
      ∧ ∀ x, DataStore.read R x = DataStore.read F x := by
  have hac : DataStore.already_committed C (Op.id op) = false :=
    acLoop_flag_false _ _ hfresh
  have hF : Op.handle op true C
      = some (C ++ BeginLogLine (Op.id op) ++ sjoin (txRecords op bs bd)) := by
    simpa using handle_spec op true C bs bd hcl hnl hac hbs hbd
  have hnlB : NlTerm (C ++ BeginLogLine (Op.id op)) :=
    nlTerm_append_line (lineShape_Begin_id op hcl)
  set L := pyReadlines C ++ [BeginLogLine (Op.id op)] with hL
  have hlines : pyReadlines (C ++ BeginLogLine (Op.id op) ++ s) = L ++ pyReadlines s := by
    rw [readlines_append hnlB s, readlines_append hnl,
      readlines_single (lineShape_Begin_id op hcl)]
  have hlbi_s : DataStore.lastBeginIdx (pyReadlines s) = none := lbi_none _ hsB
  have hlbi1 : DataStore.lastBeginIdx [BeginLogLine (Op.id op)] = some 0 := by
    simp [DataStore.lastBeginIdx, sw_begin_BEGIN]
  have hlbiL : DataStore.lastBeginIdx L = some (pyReadlines C).length := by
    have h2 := lbi_append_some (pyReadlines C) [BeginLogLine (Op.id op)] 0 hlbi1
    simpa using h2
  have hLshape : ∀ l ∈ L, LineShape l = true := by
    intro l hl
    rcases List.mem_append.mp hl with h1 | h1
    · exact (nlterm_lines hnl).1 l h1
    · rw [List.mem_singleton.mp h1]
      exact lineShape_Begin_id op hcl
  have hrec : DataStore.recover (C ++ BeginLogLine (Op.id op) ++ s)
      = Op.handle op false (sjoin (L.map (fun l => l ++ "\n"))) := by
    unfold DataStore.recover
    simp only [hlines, lbi_append_none _ _ hlbi_s, hlbiL]
    rw [List.take_left' (show L.length = (pyReadlines C).length + 1 from by simp [hL])]
    rw [show L[(pyReadlines C).length]? = some (BeginLogLine (Op.id op)) from by
      rw [hL, List.getElem?_append_right (Nat.le_refl _)]
      simp]
    simp only [split_Begin_id op hcl, parse_id_roundtrip op (cleanOp_noUnd hcl),
      List.getElem?_cons_succ, List.getElem?_cons_zero, Option.some.injEq]
  have hnlc' : NlTerm (sjoin (L.map (fun l => l ++ "\n"))) := nlTerm_doubled L hLshape
  have hlines' : pyReadlines (sjoin (L.map (fun l => l ++ "\n")))
      = L.flatMap (fun l => [l, "\n"]) := readlines_doubled L hLshape
  have hacc' : DataStore.already_committed
      (sjoin (L.map (fun l => l ++ "\n"))) (Op.id op) = false := by
    unfold DataStore.already_committed
    rw [hlines', hL, List.flatMap_append, acLoop_append]
    have h1 : DataStore.acLoop (Op.id op) false
        ((pyReadlines C).flatMap (fun l => [l, "\n"])) = false := by
      apply acLoop_flag_false
      intro l hl
      rw [List.mem_flatMap] at hl
      obtain ⟨y, hy, hl⟩ := hl
      rcases List.mem_cons.mp hl with h1 | hl
      · rw [h1]
        exact hfresh y hy
      · rcases List.mem_cons.mp hl with h1 | h
        · rw [h1, strip_blank]
          exact pyIn_empty _ (id_ne_nil op)
        · simp at h
    rw [h1]
    have h2 : ∀ f, DataStore.acLoop (Op.id op) f
        (([BeginLogLine (Op.id op)] : List String).flatMap (fun l => [l, "\n"])) = false := by
      intro f
      apply acLoop_no_commit
      intro l hl
      simp only [List.flatMap_cons, List.flatMap_nil, List.append_nil] at hl
      rcases List.mem_cons.mp hl with h1 | hl
      · rw [h1]
        exact strip_Begin_ne_COMMIT op hcl
      · rcases List.mem_cons.mp hl with h1 | h
        · rw [h1, strip_blank]
          intro hc
          exact absurd (congrArg String.data hc) (by decide)
        · simp at h
    rw [h2]
    simp
  have hwl : wlines (sjoin (L.map (fun l => l ++ "\n"))) = wlines C := by
    unfold wlines
    rw [hlines', hL, List.flatMap_append, List.filter_append, filter_doubled,
      filter_doubled]
    simp [List.filter_cons, sw_begin_WRITE]
  have hreads : ∀ x, DataStore.read (sjoin (L.map (fun l => l ++ "\n"))) x
      = DataStore.read C x := fun x => read_eq_of_wlines hwl x
  have hR : Op.handle op false (sjoin (L.map (fun l => l ++ "\n")))
      = some (sjoin (L.map (fun l => l ++ "\n")) ++ sjoin (txRecords op bs bd)) := by
    have h2 := handle_spec op false (sjoin (L.map (fun l => l ++ "\n"))) bs bd hcl hnlc' hacc'
      (by rw [hreads]; exact hbs) (by rw [hreads]; exact hbd)
    simpa [append_empty] using h2
  have hwlR : wlines (sjoin (L.map (fun l => l ++ "\n")) ++ sjoin (txRecords op bs bd))
      = wlines (C ++ BeginLogLine (Op.id op) ++ sjoin (txRecords op bs bd)) := by
    rw [wlines_append hnlc', wlines_append hnlB, wlines_append hnl,
      wlines_single_skip (lineShape_Begin_id op hcl) (sw_begin_WRITE _), hwl]
    simp
  refine ⟨C ++ BeginLogLine (Op.id op) ++ sjoin (txRecords op bs bd),
    sjoin (L.map (fun l => l ++ "\n")) ++ sjoin (txRecords op bs bd), hF, ?_, ?_⟩
  · rw [hrec, hR]
  · intro x
    exact read_eq_of_wlines hwlR x

theorem claim_C5_witness :
    ∃ F R, Op.handle (Op.deposit "7" "A" 5) true "" = some F
      ∧ DataStore.recover
          ("" ++ BeginLogLine (Op.id (Op.deposit "7" "A" 5)) ++ "READ A 0\n") = some R
      ∧ ∀ x, DataStore.read R x = DataStore.read F x :=
  claim_C5_recovery (Op.deposit "7" "A" 5) "" "READ A 0\n" 0 0 (by decide) nlTerm_empty
    (by intro l hl; rw [readlines_empty] at hl; simp at hl)
    (by decide) (by decide) (by decide)
